import Mathlib

/-!
Verification development for the Rocket.Chat channel plugin
(`openclaw-channel-rocketchat`).

The file shallowly embeds the plugin's persistent stores
(`approval-queue.ts`, `pairing.ts`), the access-control decision logic of
`handleIncomingMessage` (`realtime.ts`), and the realtime session state
machine (`RocketChatRealtime` in `realtime.ts`) as pure Lean functions.
File-system effects are made explicit: each operation takes the current
store value and returns the new one; timestamps, random codes/ids and
remote role lookups are passed in as parameters.
-/

/-! ## Character-level string operations

JavaScript string primitives (`toLowerCase`, `trim`, `startsWith`, `slice`,
`includes`) are modelled on the character list underlying a `String`, so that
all definitions evaluate inside the kernel on concrete inputs.  Lower-casing
is ASCII lower-casing, which is what the identifiers handled by the plugin
use. -/

/-- ASCII lower-casing of one character. -/
def lowerChar (c : Char) : Char :=
  if 65 ≤ c.toNat && c.toNat ≤ 90 then Char.ofNat (c.toNat + 32) else c

/-- `s.toLowerCase()`. -/
def strLower (s : String) : String := ⟨s.data.map lowerChar⟩

/-- Whitespace test for `trim`. -/
def wsChar (c : Char) : Bool := c == ' ' || c == '\t' || c == '\n' || c == '\r'

/-- `s.trim()`. -/
def strTrim (s : String) : String :=
  ⟨((s.data.dropWhile wsChar).reverse.dropWhile wsChar).reverse⟩

/-- `s.startsWith(pre)`. -/
def strStarts (s pre : String) : Bool := s.data.take pre.data.length == pre.data

/-- `s.slice(n)`: drop the first `n` characters. -/
def strDrop (s : String) (n : Nat) : String := ⟨s.data.drop n⟩

/-- `s === ""` (and JavaScript falsiness of a string). -/
def strIsEmpty (s : String) : Bool := s.data.isEmpty

/-- `hay.includes(needle)`. -/
def strHas (hay needle : String) : Bool :=
  (List.range (hay.data.length + 1)).any
    (fun i => (hay.data.drop i).take needle.data.length == needle.data)

/-! ## Generic list helpers -/

/-- Replace the first element satisfying `pred` by its image under `f`,
leaving everything else untouched.  This models the JavaScript pattern of
`find`-ing an object in an array and mutating it in place. -/
def updateFirst {α : Type} (pred : α → Bool) (f : α → α) : List α → List α
  | [] => []
  | x :: xs => if pred x then f x :: xs else x :: updateFirst pred f xs

theorem updateFirst_length {α : Type} (pred : α → Bool) (f : α → α) (l : List α) :
    (updateFirst pred f l).length = l.length := by
  induction l with
  | nil => rfl
  | cons x xs ih =>
    simp only [updateFirst]
    split <;> simp [ih]

/-- `updateFirst` when the head does not match. -/
theorem updateFirst_cons_neg {α : Type} {pred : α → Bool} {f : α → α} {x : α} {xs : List α}
    (h : pred x = false) : updateFirst pred f (x :: xs) = x :: updateFirst pred f xs := by
  simp [updateFirst, h]

/-- `updateFirst` when the head matches. -/
theorem updateFirst_cons_pos {α : Type} {pred : α → Bool} {f : α → α} {x : α} {xs : List α}
    (h : pred x = true) : updateFirst pred f (x :: xs) = f x :: xs := by
  simp [updateFirst, h]

/-- If no element satisfies the predicate, `updateFirst` is the identity. -/
theorem updateFirst_of_forall_neg {α : Type} {pred : α → Bool} {f : α → α} {l : List α}
    (h : ∀ x ∈ l, pred x = false) : updateFirst pred f l = l := by
  induction l with
  | nil => rfl
  | cons x xs ih =>
    rw [updateFirst_cons_neg (h x (List.mem_cons_self x xs))]
    rw [ih (fun y hy => h y (List.mem_cons_of_mem x hy))]

/-- `find?` and `updateFirst` with the same predicate touch the same position:
if `find?` returns `a` at index `i`, then `updateFirst` replaces exactly the
element at `i` by `f a`. -/
theorem updateFirst_eq_of_find? {α : Type} {pred : α → Bool} {f : α → α} {l : List α} {a : α}
    (h : l.find? pred = some a) :
    ∃ l₁ l₂, l = l₁ ++ a :: l₂ ∧ (∀ x ∈ l₁, pred x = false) ∧ pred a = true ∧
      updateFirst pred f l = l₁ ++ f a :: l₂ := by
  induction l with
  | nil => simp [List.find?] at h
  | cons x xs ih =>
    by_cases hx : pred x = true
    · rw [List.find?_cons_of_pos _ hx] at h
      injection h with h
      subst h
      exact ⟨[], xs, by simp, by simp, hx, by simp [updateFirst_cons_pos hx]⟩
    · have hx' : pred x = false := by simpa using hx
      rw [List.find?_cons_of_neg _ (by simp [hx'])] at h
      obtain ⟨l₁, l₂, hl, hneg, hpa, hupd⟩ := ih h
      exact ⟨x :: l₁, l₂, by simp [hl], by
        intro y hy
        rcases List.mem_cons.mp hy with rfl | hy
        · exact hx'
        · exact hneg y hy, hpa, by simp [updateFirst_cons_neg hx', hupd]⟩

/-! ## Approval queue (`approval-queue.ts`) -/

/-- `ApprovalType` from `approval-queue.ts`: `"dm" | "room"`. -/
inductive ApprovalType where
  | dm
  | room
deriving DecidableEq, Repr

/-- `status` field of a `PendingApproval`. -/
inductive ApprovalStatus where
  | pending
  | approved
  | denied
  | expired
deriving DecidableEq, Repr

/-- `PendingApproval` from `approval-queue.ts`.  Timestamps are epoch
milliseconds, modelled as `Int`.

The `notifyMessages` field is the list of `(roomId, messageId)` pairs of the
notification messages that carry reaction controls.  Modelled from the spec:
the repository imports `updateApprovalNotifyMessages` / `findApprovalByMessageId`
from `approval-queue.ts` but the shipped copy of that module predates them; the
spec describes the field as "an optional list of `(roomId, messageId)` pairs
identifying notification messages that carry reaction-based decision
controls". -/
structure PendingApproval where
  id : String
  kind : ApprovalType
  targetId : String
  targetName : Option String
  targetUsername : Option String
  requesterId : String
  requesterName : Option String
  requesterUsername : Option String
  replyRoomId : String
  createdAt : Int
  lastNotifiedAt : Int
  expiresAt : Option Int
  status : ApprovalStatus
  decidedBy : Option String
  decidedAt : Option Int
  notifyMessages : List (String × String)
deriving DecidableEq, Repr

/-- The persisted approval-queue document (`{version, pending}`). -/
structure ApprovalStore where
  version : Int
  pending : List PendingApproval
deriving DecidableEq, Repr

/-- `target.toLowerCase().replace(/^@/, "")` in `findPendingApproval`. -/
def normalizeTarget (t : String) : String :=
  let lower := strLower t
  if strStarts lower "@" then strDrop lower 1 else lower

/-- The matcher used by `findPendingApproval` (status must be `pending`, the
optional type must agree, and the target matches by id, record id, username
(case-insensitive) or — for rooms — room name). -/
def pendingMatches (target : String) (kind? : Option ApprovalType) (p : PendingApproval) : Bool :=
  p.status == .pending &&
  (match kind? with
   | some k => p.kind == k
   | none => true) &&
  (p.targetId == target ||
   p.id == target ||
   p.targetUsername.map strLower == some (normalizeTarget target) ||
   (p.kind == .room && p.targetName.map strLower == some (normalizeTarget target)))

/-- `findPendingApproval` from `approval-queue.ts`. -/
def findPendingApproval (store : ApprovalStore) (target : String)
    (kind? : Option ApprovalType) : Option PendingApproval :=
  store.pending.find? (pendingMatches target kind?)

/-- The duplicate check inside `createApproval`: same `targetId`, same type,
still `pending`. -/
def sameTargetPending (targetId : String) (kind : ApprovalType) (p : PendingApproval) : Bool :=
  p.targetId == targetId && p.kind == kind && p.status == .pending

/-- Parameters of `createApproval`. -/
structure CreateApprovalParams where
  kind : ApprovalType
  targetId : String
  targetName : Option String
  targetUsername : Option String
  requesterId : String
  requesterName : Option String
  requesterUsername : Option String
  replyRoomId : String
  timeoutMs : Option Int
deriving DecidableEq, Repr

/-- `createApproval` from `approval-queue.ts`.  `freshId` stands for the
random `crypto.randomUUID().slice(0, 8)` token and `now` for `Date.now()`.
If a pending record for the same `(targetId, type)` exists, only its
`lastNotifiedAt` is refreshed and it is returned; otherwise a new pending
record is appended. -/
def createApproval (store : ApprovalStore) (params : CreateApprovalParams)
    (freshId : String) (now : Int) : PendingApproval × ApprovalStore :=
  match store.pending.find? (sameTargetPending params.targetId params.kind) with
  | some existing =>
    let updated := { existing with lastNotifiedAt := now }
    (updated,
     { store with
        pending := updateFirst (sameTargetPending params.targetId params.kind)
          (fun p => { p with lastNotifiedAt := now }) store.pending })
  | none =>
    let approval : PendingApproval :=
      { id := freshId
        kind := params.kind
        targetId := params.targetId
        targetName := params.targetName
        targetUsername := params.targetUsername
        requesterId := params.requesterId
        requesterName := params.requesterName
        requesterUsername := params.requesterUsername
        replyRoomId := params.replyRoomId
        createdAt := now
        lastNotifiedAt := now
        expiresAt := params.timeoutMs.map (fun t => now + t)
        status := .pending
        decidedBy := none
        decidedAt := none
        notifyMessages := [] }
    (approval, { store with pending := store.pending ++ [approval] })

/-- `listPendingApprovals` from `approval-queue.ts`. -/
def listPendingApprovals (store : ApprovalStore) : List PendingApproval :=
  store.pending.filter (fun p => p.status == .pending)

/-- `approveRequest` from `approval-queue.ts`.  Returns the decided record
(if any), the new store, and whether the store was written back. -/
def approveRequest (store : ApprovalStore) (target : String) (decidedBy : String)
    (kind? : Option ApprovalType) (now : Int) :
    Option PendingApproval × ApprovalStore × Bool :=
  match findPendingApproval store target kind? with
  | none => (none, store, false)
  | some approval =>
    let decided := { approval with
      status := ApprovalStatus.approved
      decidedBy := some decidedBy
      decidedAt := some now }
    (some decided,
     { store with
        pending := updateFirst (pendingMatches target kind?)
          (fun p => { p with
            status := ApprovalStatus.approved
            decidedBy := some decidedBy
            decidedAt := some now }) store.pending },
     true)

/-- `denyRequest` from `approval-queue.ts`. -/
def denyRequest (store : ApprovalStore) (target : String) (decidedBy : String)
    (kind? : Option ApprovalType) (now : Int) :
    Option PendingApproval × ApprovalStore × Bool :=
  match findPendingApproval store target kind? with
  | none => (none, store, false)
  | some approval =>
    let decided := { approval with
      status := ApprovalStatus.denied
      decidedBy := some decidedBy
      decidedAt := some now }
    (some decided,
     { store with
        pending := updateFirst (pendingMatches target kind?)
          (fun p => { p with
            status := ApprovalStatus.denied
            decidedBy := some decidedBy
            decidedAt := some now }) store.pending },
     true)

/-- The expiry test inside `processExpiredApprovals`:
`approval.status === "pending" && approval.expiresAt && approval.expiresAt < now`. -/
def isExpiredNow (now : Int) (p : PendingApproval) : Bool :=
  p.status == .pending && (match p.expiresAt with
    | some e => decide (e < now)
    | none => false)

/-- `processExpiredApprovals` from `approval-queue.ts`: every pending record
whose `expiresAt` has passed is marked `expired`. -/
def processExpiredApprovals (store : ApprovalStore) (now : Int) : ApprovalStore :=
  { store with
      pending := store.pending.map (fun p =>
        if isExpiredNow now p then { p with status := ApprovalStatus.expired } else p) }

/-- Insert into a list sorted by descending decision time (helper for
`cleanupOldApprovals`; models `Array.prototype.sort` with the comparator
`(b.decidedAt ?? b.createdAt) - (a.decidedAt ?? a.createdAt)`). -/
def insertByDecidedDesc (p : PendingApproval) : List PendingApproval → List PendingApproval
  | [] => [p]
  | q :: qs =>
    if (p.decidedAt.getD p.createdAt) ≥ (q.decidedAt.getD q.createdAt) then p :: q :: qs
    else q :: insertByDecidedDesc p qs

/-- Sort by descending decision time. -/
def sortByDecidedDesc : List PendingApproval → List PendingApproval
  | [] => []
  | p :: ps => insertByDecidedDesc p (sortByDecidedDesc ps)

/-- `cleanupOldApprovals` from `approval-queue.ts`: keep all pending records
plus the 100 most recently decided non-pending records. -/
def cleanupOldApprovals (store : ApprovalStore) : ApprovalStore :=
  let pending := store.pending.filter (fun p => p.status == .pending)
  let completed :=
    (sortByDecidedDesc (store.pending.filter (fun p => !(p.status == .pending)))).take 100
  { store with pending := pending ++ completed }

/-- `updateApprovalNotifyMessages`.  Modelled from the spec: the store records,
for a given approval id, the `(roomId, messageId)` pairs of the notification
messages, so that reactions on them can later be resolved to this approval. -/
def updateApprovalNotifyMessages (store : ApprovalStore) (approvalId : String)
    (msgs : List (String × String)) : ApprovalStore :=
  { store with
      pending := updateFirst (fun p => p.id == approvalId)
        (fun p => { p with notifyMessages := msgs }) store.pending }

/-- `findApprovalByMessageId`.  Modelled from the spec: resolves a chat
message id to the approval whose tracked notification messages contain it. -/
def findApprovalByMessageId (store : ApprovalStore) (messageId : String) :
    Option PendingApproval :=
  store.pending.find? (fun p => p.notifyMessages.any (fun m => m.2 == messageId))

/-- Two records clash when both are pending with the same `(targetId, type)`
key.  The store invariant is that no two records clash. -/
def pendingClash (p q : PendingApproval) : Bool :=
  p.status == .pending && q.status == .pending && p.targetId == q.targetId && p.kind == q.kind

/-- Store invariant: at most one pending record per `(targetId, type)` pair,
expressed as pairwise absence of clashes. -/
def ApprovalInv (store : ApprovalStore) : Prop :=
  store.pending.Pairwise (fun p q => pendingClash p q = false)


/-- Propositional characterisation of a clash. -/
theorem pendingClash_eq_true_iff (p q : PendingApproval) :
    pendingClash p q = true ↔
      (p.status = .pending ∧ q.status = .pending ∧ p.targetId = q.targetId ∧ p.kind = q.kind) := by
  simp [pendingClash, Bool.and_eq_true, and_assoc]

/-- Propositional characterisation of the absence of a clash. -/
theorem pendingClash_eq_false_iff (p q : PendingApproval) :
    pendingClash p q = false ↔
      ¬(p.status = .pending ∧ q.status = .pending ∧ p.targetId = q.targetId ∧ p.kind = q.kind) := by
  rw [← pendingClash_eq_true_iff]
  cases pendingClash p q <;> simp

/-- Propositional characterisation of the duplicate test in `createApproval`. -/
theorem sameTargetPending_eq_true_iff (targetId : String) (kind : ApprovalType)
    (p : PendingApproval) :
    sameTargetPending targetId kind p = true ↔
      (p.targetId = targetId ∧ p.kind = kind ∧ p.status = .pending) := by
  simp [sameTargetPending, Bool.and_eq_true, and_assoc]

/-- A clash with a record that is not pending is impossible (right side). -/
theorem pendingClash_false_of_right (p q : PendingApproval) (h : q.status ≠ .pending) :
    pendingClash p q = false := by
  rw [pendingClash_eq_false_iff]
  rintro ⟨_, hq, _, _⟩
  exact h hq

/-- A clash with a record that is not pending is impossible (left side). -/
theorem pendingClash_false_of_left (p q : PendingApproval) (h : p.status ≠ .pending) :
    pendingClash p q = false := by
  rw [pendingClash_eq_false_iff]
  rintro ⟨hp, _, _, _⟩
  exact h hp

/-- Membership through `updateFirst`: every element of the result is either an
original element or the image of one. -/
theorem mem_updateFirst {α : Type} {pred : α → Bool} {f : α → α} {l : List α} {z : α}
    (h : z ∈ updateFirst pred f l) : z ∈ l ∨ ∃ y ∈ l, z = f y := by
  induction l with
  | nil => simp [updateFirst] at h
  | cons x xs ih =>
    simp only [updateFirst] at h
    split at h
    · rcases List.mem_cons.mp h with rfl | hz
      · exact Or.inr ⟨x, List.mem_cons_self x xs, rfl⟩
      · exact Or.inl (List.mem_cons_of_mem x hz)
    · rcases List.mem_cons.mp h with rfl | hz
      · exact Or.inl (List.mem_cons_self z xs)
      · rcases ih hz with h' | ⟨y, hy, rfl⟩
        · exact Or.inl (List.mem_cons_of_mem x h')
        · exact Or.inr ⟨y, List.mem_cons_of_mem x hy, rfl⟩

/-- A function on approval records that never introduces new clashes. -/
def ClashNonIncreasing (f : PendingApproval → PendingApproval) : Prop :=
  ∀ p q : PendingApproval,
    (pendingClash (f p) q = true → pendingClash p q = true) ∧
    (pendingClash q (f p) = true → pendingClash q p = true)

/-- Updating one record with a clash-non-increasing function preserves the
pairwise no-clash invariant. -/
theorem pairwise_updateFirst {pred : PendingApproval → Bool}
    {f : PendingApproval → PendingApproval} {l : List PendingApproval}
    (hf : ClashNonIncreasing f)
    (h : l.Pairwise (fun p q => pendingClash p q = false)) :
    (updateFirst pred f l).Pairwise (fun p q => pendingClash p q = false) := by
  induction l with
  | nil => simp [updateFirst]
  | cons x xs ih =>
    rcases List.pairwise_cons.mp h with ⟨hx, hxs⟩
    simp only [updateFirst]
    split
    · refine List.pairwise_cons.mpr ⟨?_, hxs⟩
      intro y hy
      cases hb : pendingClash (f x) y with
      | false => rfl
      | true =>
        have := (hf x y).1 hb
        rw [hx y hy] at this
        exact absurd this Bool.false_ne_true
    · refine List.pairwise_cons.mpr ⟨?_, ih hxs⟩
      intro z hz
      rcases mem_updateFirst hz with hz' | ⟨y, hy, rfl⟩
      · exact hx z hz'
      · cases hb : pendingClash x (f y) with
        | false => rfl
        | true =>
          have := (hf y x).2 hb
          rw [hx y hy] at this
          exact absurd this Bool.false_ne_true

/-- Refreshing `lastNotifiedAt` leaves the clash key untouched. -/
theorem clashNonIncreasing_lastNotified (now : Int) :
    ClashNonIncreasing (fun p => { p with lastNotifiedAt := now }) := by
  intro p q
  constructor <;>
    (intro h
     rw [pendingClash_eq_true_iff] at h ⊢
     exact h)

/-- Replacing the tracked notification messages leaves the clash key untouched. -/
theorem clashNonIncreasing_notifyMessages (msgs : List (String × String)) :
    ClashNonIncreasing (fun p => { p with notifyMessages := msgs }) := by
  intro p q
  constructor <;>
    (intro h
     rw [pendingClash_eq_true_iff] at h ⊢
     exact h)

/-- Deciding a record (status becomes `approved`) cannot create a clash. -/
theorem clashNonIncreasing_approve (decidedBy : String) (now : Int) :
    ClashNonIncreasing (fun p => { p with
      status := ApprovalStatus.approved
      decidedBy := some decidedBy
      decidedAt := some now }) := by
  intro p q
  constructor
  · intro h
    rw [pendingClash_false_of_left _ q (by simp)] at h
    exact absurd h Bool.false_ne_true
  · intro h
    rw [pendingClash_false_of_right q _ (by simp)] at h
    exact absurd h Bool.false_ne_true

/-- Deciding a record (status becomes `denied`) cannot create a clash. -/
theorem clashNonIncreasing_deny (decidedBy : String) (now : Int) :
    ClashNonIncreasing (fun p => { p with
      status := ApprovalStatus.denied
      decidedBy := some decidedBy
      decidedAt := some now }) := by
  intro p q
  constructor
  · intro h
    rw [pendingClash_false_of_left _ q (by simp)] at h
    exact absurd h Bool.false_ne_true
  · intro h
    rw [pendingClash_false_of_right q _ (by simp)] at h
    exact absurd h Bool.false_ne_true

/-- `createApproval` preserves the store invariant. -/
theorem approvalInv_createApproval (store : ApprovalStore) (params : CreateApprovalParams)
    (freshId : String) (now : Int) (hinv : ApprovalInv store) :
    ApprovalInv (createApproval store params freshId now).2 := by
  unfold createApproval
  cases hfind : store.pending.find? (sameTargetPending params.targetId params.kind) with
  | some existing =>
    simpa [ApprovalInv] using pairwise_updateFirst (clashNonIncreasing_lastNotified now) hinv
  | none =>
    simp only [ApprovalInv]
    rw [List.pairwise_append]
    refine ⟨hinv, List.Pairwise.nil.cons (by simp), ?_⟩
    intro p hp b hb
    have hb' : b = _ := List.mem_singleton.mp hb
    subst hb'
    have hnp := List.find?_eq_none.mp hfind p hp
    have hnp' : sameTargetPending params.targetId params.kind p = false := by
      simpa using hnp
    rw [pendingClash_eq_false_iff]
    rintro ⟨hps, _, htid, hkind⟩
    rw [← Bool.not_eq_true, sameTargetPending_eq_true_iff] at hnp'
    exact hnp' ⟨htid, hkind, hps⟩

/-- `approveRequest` preserves the store invariant. -/
theorem approvalInv_approveRequest (store : ApprovalStore) (target decidedBy : String)
    (kind? : Option ApprovalType) (now : Int) (hinv : ApprovalInv store) :
    ApprovalInv (approveRequest store target decidedBy kind? now).2.1 := by
  unfold approveRequest
  cases hfind : findPendingApproval store target kind? with
  | none => simpa using hinv
  | some approval =>
    simpa [ApprovalInv] using
      pairwise_updateFirst (clashNonIncreasing_approve decidedBy now) hinv

/-- `denyRequest` preserves the store invariant. -/
theorem approvalInv_denyRequest (store : ApprovalStore) (target decidedBy : String)
    (kind? : Option ApprovalType) (now : Int) (hinv : ApprovalInv store) :
    ApprovalInv (denyRequest store target decidedBy kind? now).2.1 := by
  unfold denyRequest
  cases hfind : findPendingApproval store target kind? with
  | none => simpa using hinv
  | some approval =>
    simpa [ApprovalInv] using
      pairwise_updateFirst (clashNonIncreasing_deny decidedBy now) hinv

/-- `processExpiredApprovals` preserves the store invariant. -/
theorem approvalInv_processExpired (store : ApprovalStore) (now : Int)
    (hinv : ApprovalInv store) : ApprovalInv (processExpiredApprovals store now) := by
  unfold processExpiredApprovals
  simp only [ApprovalInv]
  refine List.Pairwise.map _ ?_ hinv
  intro a b hab
  dsimp only
  cases ha : isExpiredNow now a with
  | true =>
    rw [if_pos rfl]
    exact pendingClash_false_of_left _ _ (by simp)
  | false =>
    rw [if_neg (by simp)]
    cases hb : isExpiredNow now b with
    | true =>
      rw [if_pos rfl]
      exact pendingClash_false_of_right _ _ (by simp)
    | false =>
      rw [if_neg (by simp)]
      exact hab

/-- Membership is preserved by the insertion sort used in `cleanupOldApprovals`. -/
theorem mem_insertByDecidedDesc {p x : PendingApproval} {l : List PendingApproval}
    (h : x ∈ insertByDecidedDesc p l) : x = p ∨ x ∈ l := by
  induction l with
  | nil => simpa [insertByDecidedDesc] using h
  | cons q qs ih =>
    simp only [insertByDecidedDesc] at h
    split at h
    · rcases List.mem_cons.mp h with rfl | h'
      · exact Or.inl rfl
      · exact Or.inr h'
    · rcases List.mem_cons.mp h with rfl | h'
      · exact Or.inr (List.mem_cons_self x qs)
      · rcases ih h' with h'' | h''
        · exact Or.inl h''
        · exact Or.inr (List.mem_cons_of_mem q h'')

/-- Membership is preserved by `sortByDecidedDesc`. -/
theorem mem_sortByDecidedDesc {x : PendingApproval} {l : List PendingApproval}
    (h : x ∈ sortByDecidedDesc l) : x ∈ l := by
  induction l with
  | nil => simp [sortByDecidedDesc] at h
  | cons q qs ih =>
    simp only [sortByDecidedDesc] at h
    rcases mem_insertByDecidedDesc h with rfl | h'
    · exact List.mem_cons_self x qs
    · exact List.mem_cons_of_mem q (ih h')

/-- `cleanupOldApprovals` preserves the store invariant. -/
theorem approvalInv_cleanup (store : ApprovalStore) (hinv : ApprovalInv store) :
    ApprovalInv (cleanupOldApprovals store) := by
  unfold cleanupOldApprovals
  simp only [ApprovalInv]
  rw [List.pairwise_append]
  have hcompleted : ∀ x ∈ (sortByDecidedDesc
      (store.pending.filter (fun p => !(p.status == ApprovalStatus.pending)))).take 100,
      x.status ≠ ApprovalStatus.pending := by
    intro x hx
    have hx' := mem_sortByDecidedDesc (List.mem_of_mem_take hx)
    have := List.of_mem_filter hx'
    simp only [Bool.not_eq_true', beq_eq_false_iff_ne, ne_eq] at this
    exact this
  refine ⟨hinv.sublist (List.filter_sublist _), ?_, ?_⟩
  · exact List.pairwise_of_forall_mem_list (fun a _ b hb =>
      pendingClash_false_of_right a b (hcompleted b hb))
  · intro a _ b hb
    exact pendingClash_false_of_right a b (hcompleted b hb)

/-- `updateApprovalNotifyMessages` preserves the store invariant. -/
theorem approvalInv_updateNotify (store : ApprovalStore) (approvalId : String)
    (msgs : List (String × String)) (hinv : ApprovalInv store) :
    ApprovalInv (updateApprovalNotifyMessages store approvalId msgs) := by
  unfold updateApprovalNotifyMessages
  simpa [ApprovalInv] using
    pairwise_updateFirst (clashNonIncreasing_notifyMessages msgs) hinv

/-- `updateFirst` on an explicit decomposition whose head part misses. -/
theorem updateFirst_append {α : Type} (pred : α → Bool) (f : α → α) (l₁ : List α) (a : α)
    (l₂ : List α) (hneg : ∀ x ∈ l₁, pred x = false) (hpa : pred a = true) :
    updateFirst pred f (l₁ ++ a :: l₂) = l₁ ++ f a :: l₂ := by
  induction l₁ with
  | nil => simp [updateFirst_cons_pos hpa]
  | cons x xs ih =>
    have hx := hneg x (List.mem_cons_self x xs)
    simp only [List.cons_append, updateFirst_cons_neg hx]
    rw [ih (fun y hy => hneg y (List.mem_cons_of_mem x hy))]

/-- **C7.**  The approval-store invariant — at most one `pending` record per
`(targetId, type)` pair — is preserved by every store operation
(`createApproval`, `approveRequest`, `denyRequest`, `processExpiredApprovals`,
`cleanupOldApprovals`, `updateApprovalNotifyMessages`); and a `createApproval`
for a `(targetId, type)` that already has a pending record does not insert a
new record (the store keeps its length) but updates `lastNotifiedAt` on the
existing record and returns it. -/
theorem C7_pending_unique_per_target
    (store : ApprovalStore) (params : CreateApprovalParams) (freshId : String)
    (target decidedBy approvalId : String) (kind? : Option ApprovalType)
    (msgs : List (String × String)) (now : Int)
    (hinv : ApprovalInv store) :
    ApprovalInv (createApproval store params freshId now).2 ∧
    ApprovalInv (approveRequest store target decidedBy kind? now).2.1 ∧
    ApprovalInv (denyRequest store target decidedBy kind? now).2.1 ∧
    ApprovalInv (processExpiredApprovals store now) ∧
    ApprovalInv (cleanupOldApprovals store) ∧
    ApprovalInv (updateApprovalNotifyMessages store approvalId msgs) ∧
    (∀ ex, store.pending.find? (sameTargetPending params.targetId params.kind) = some ex →
      (createApproval store params freshId now).1 = { ex with lastNotifiedAt := now } ∧
      ((createApproval store params freshId now).2).pending.length = store.pending.length) := by
  refine ⟨approvalInv_createApproval store params freshId now hinv,
    approvalInv_approveRequest store target decidedBy kind? now hinv,
    approvalInv_denyRequest store target decidedBy kind? now hinv,
    approvalInv_processExpired store now hinv,
    approvalInv_cleanup store hinv,
    approvalInv_updateNotify store approvalId msgs hinv, ?_⟩
  intro ex hex
  unfold createApproval
  rw [hex]
  exact ⟨rfl, by simp [updateFirst_length]⟩

/-- A sample pending DM approval record. -/
def sampleApproval : PendingApproval :=
  { id := "a1"
    kind := .dm
    targetId := "u1"
    targetName := some "Alice"
    targetUsername := some "alice"
    requesterId := "u1"
    requesterName := some "Alice"
    requesterUsername := some "alice"
    replyRoomId := "dm1"
    createdAt := 10
    lastNotifiedAt := 10
    expiresAt := none
    status := .pending
    decidedBy := none
    decidedAt := none
    notifyMessages := [("notif", "m1")] }

/-- A sample store holding the single pending record above. -/
def sampleStore : ApprovalStore := { version := 1, pending := [sampleApproval] }

/-- Create parameters that collide with `sampleApproval`. -/
def sampleParams : CreateApprovalParams :=
  { kind := .dm
    targetId := "u1"
    targetName := some "Alice"
    targetUsername := some "alice"
    requesterId := "u1"
    requesterName := some "Alice"
    requesterUsername := some "alice"
    replyRoomId := "dm1"
    timeoutMs := none }

/-- Witness for C7 at a concrete store with a colliding create request. -/
theorem C7_witness :
    ApprovalInv sampleStore ∧
    (createApproval sampleStore sampleParams "f7" 20).1 =
      { sampleApproval with lastNotifiedAt := 20 } ∧
    ((createApproval sampleStore sampleParams "f7" 20).2).pending.length =
      sampleStore.pending.length := by
  have hinv : ApprovalInv sampleStore := by
    unfold ApprovalInv
    decide
  have h := C7_pending_unique_per_target sampleStore sampleParams "f7" "t" "boss" "a1"
    none [] 20 hinv
  have hdup := h.2.2.2.2.2.2 sampleApproval (by decide)
  exact ⟨hinv, hdup.1, hdup.2⟩

/-- **C10.**  For a target with no matching pending record, `approveRequest`
and `denyRequest` return `null` and leave the store completely unchanged
(nothing is written back); on a match, they mutate exactly the first matching
record's `status`/`decidedBy`/`decidedAt` and no other record, and write the
store back. -/
theorem C10_decide_miss_or_hit
    (store : ApprovalStore) (target decidedBy : String) (kind? : Option ApprovalType)
    (now : Int) :
    (findPendingApproval store target kind? = none →
      approveRequest store target decidedBy kind? now = (none, store, false) ∧
      denyRequest store target decidedBy kind? now = (none, store, false)) ∧
    (∀ a, findPendingApproval store target kind? = some a →
      ∃ l₁ l₂, store.pending = l₁ ++ a :: l₂ ∧
        (∀ x ∈ l₁, pendingMatches target kind? x = false) ∧
        pendingMatches target kind? a = true ∧
        approveRequest store target decidedBy kind? now =
          (some { a with
                    status := ApprovalStatus.approved
                    decidedBy := some decidedBy
                    decidedAt := some now },
           { store with pending := l₁ ++ { a with
              status := ApprovalStatus.approved
              decidedBy := some decidedBy
              decidedAt := some now } :: l₂ }, true) ∧
        denyRequest store target decidedBy kind? now =
          (some { a with
                    status := ApprovalStatus.denied
                    decidedBy := some decidedBy
                    decidedAt := some now },
           { store with pending := l₁ ++ { a with
              status := ApprovalStatus.denied
              decidedBy := some decidedBy
              decidedAt := some now } :: l₂ }, true)) := by
  constructor
  · intro hnone
    constructor
    · unfold approveRequest
      rw [hnone]
    · unfold denyRequest
      rw [hnone]
  · intro a hsome
    obtain ⟨l₁, l₂, hl, hneg, hpa, _⟩ :=
      @updateFirst_eq_of_find? _ _ (fun p => { p with
        status := ApprovalStatus.approved
        decidedBy := some decidedBy
        decidedAt := some now }) _ _ hsome
    refine ⟨l₁, l₂, hl, hneg, hpa, ?_, ?_⟩
    · unfold approveRequest
      rw [hsome]
      have : updateFirst (pendingMatches target kind?)
          (fun p => { p with
            status := ApprovalStatus.approved
            decidedBy := some decidedBy
            decidedAt := some now }) store.pending =
          l₁ ++ { a with
            status := ApprovalStatus.approved
            decidedBy := some decidedBy
            decidedAt := some now } :: l₂ := by
        rw [hl]
        exact updateFirst_append _ _ l₁ a l₂ hneg hpa
      simp [this]
    · unfold denyRequest
      rw [hsome]
      have : updateFirst (pendingMatches target kind?)
          (fun p => { p with
            status := ApprovalStatus.denied
            decidedBy := some decidedBy
            decidedAt := some now }) store.pending =
          l₁ ++ { a with
            status := ApprovalStatus.denied
            decidedBy := some decidedBy
            decidedAt := some now } :: l₂ := by
        rw [hl]
        exact updateFirst_append _ _ l₁ a l₂ hneg hpa
      simp [this]

/-- Witness for C10: a miss (no pending record matches `"nobody"`) leaves the
sample store untouched, and a hit on `"@Alice"` decides the sample record. -/
theorem C10_witness :
    (approveRequest sampleStore "nobody" "boss" none 99 = (none, sampleStore, false) ∧
      denyRequest sampleStore "nobody" "boss" none 99 = (none, sampleStore, false)) ∧
    (∃ l₁ l₂, sampleStore.pending = l₁ ++ sampleApproval :: l₂ ∧
      (∀ x ∈ l₁, pendingMatches "@Alice" (some .dm) x = false) ∧
      pendingMatches "@Alice" (some .dm) sampleApproval = true ∧
      approveRequest sampleStore "@Alice" "boss" (some .dm) 99 =
        (some { sampleApproval with
                  status := ApprovalStatus.approved
                  decidedBy := some "boss"
                  decidedAt := some 99 },
         { sampleStore with pending := [] ++ { sampleApproval with
            status := ApprovalStatus.approved
            decidedBy := some "boss"
            decidedAt := some 99 } :: [] }, true) ∧
      denyRequest sampleStore "@Alice" "boss" (some .dm) 99 =
        (some { sampleApproval with
                  status := ApprovalStatus.denied
                  decidedBy := some "boss"
                  decidedAt := some 99 },
         { sampleStore with pending := [] ++ { sampleApproval with
            status := ApprovalStatus.denied
            decidedBy := some "boss"
            decidedAt := some 99 } :: [] }, true)) := by
  constructor
  · exact (C10_decide_miss_or_hit sampleStore "nobody" "boss" none 99).1 (by decide)
  · have h := (C10_decide_miss_or_hit sampleStore "@Alice" "boss" (some .dm) 99).2
      sampleApproval (by decide)
    obtain ⟨l₁, l₂, hl, hneg, hpa, happ, hden⟩ := h
    have hl₁ : l₁ = [] ∧ l₂ = [] := by
      cases l₁ with
      | nil =>
        refine ⟨rfl, ?_⟩
        have := hl
        simp only [sampleStore, List.nil_append] at this
        injection this with _ h2
        exact h2.symm
      | cons x xs =>
        exfalso
        have := congrArg List.length hl
        simp [sampleStore] at this
    obtain ⟨h1, h2⟩ := hl₁
    subst h1; subst h2
    exact ⟨[], [], hl, hneg, hpa, happ, hden⟩

/-! ## Pairing store (`pairing.ts`) -/

/-- `PairingRequest` from `pairing.ts`.  Timestamps are ISO strings in the
file; they are compared through `getTime()`, so they are modelled directly as
epoch milliseconds.  `meta` is a JavaScript object with possibly-undefined
values, modelled as an association list. -/
structure PairingRequest where
  id : String
  code : String
  createdAt : Int
  lastSeenAt : Int
  meta : List (String × Option String)
deriving DecidableEq, Repr

/-- The persisted pairing document (`{version, requests}`). -/
structure PairingStore where
  version : Int
  requests : List PairingRequest
deriving DecidableEq, Repr

/-- `PAIRING_TTL_MS = 3600 * 1000` (one hour). -/
def PAIRING_TTL_MS : Int := 3600 * 1000

/-- `MAX_PENDING = 3`. -/
def MAX_PENDING : Nat := 3

/-- Set one key of a JavaScript-object-as-association-list. -/
def setMetaKey (m : List (String × Option String)) (k : String) (v : Option String) :
    List (String × Option String) :=
  if m.any (fun e => e.1 == k) then updateFirst (fun e => e.1 == k) (fun e => (e.1, v)) m
  else m ++ [(k, v)]

/-- `{...old, ...new}`: spread-merge of two objects (later keys win). -/
def mergeMeta (old new' : List (String × Option String)) : List (String × Option String) :=
  new'.foldl (fun acc e => setMetaKey acc e.1 e.2) old

/-- Insert into a list sorted by ascending `createdAt` (stable, like
`Array.prototype.sort` with comparator `a.createdAt - b.createdAt`). -/
def insertByCreatedAsc (r : PairingRequest) : List PairingRequest → List PairingRequest
  | [] => [r]
  | q :: qs =>
    if r.createdAt ≤ q.createdAt then r :: q :: qs else q :: insertByCreatedAsc r qs

/-- Sort by ascending `createdAt`. -/
def sortByCreatedAsc : List PairingRequest → List PairingRequest
  | [] => []
  | r :: rs => insertByCreatedAsc r (sortByCreatedAsc rs)

/-- `upsertChannelPairingRequest` from `pairing.ts`.  `newCode` stands for the
random `generatePairingCode()` output and `now` for the current time.  Expired
requests are purged first; an existing request for the same id is refreshed
(`lastSeenAt`, merged meta) and its code returned with `created = false`;
otherwise the oldest request is evicted when the store is full and a fresh
request is appended with `created = true`. -/
def upsertChannelPairingRequest (store : PairingStore) (id : String)
    (meta : List (String × Option String)) (newCode : String) (now : Int) :
    (String × Bool) × PairingStore :=
  let cutoff : Int := now - PAIRING_TTL_MS
  let requests := store.requests.filter (fun r => decide (r.createdAt > cutoff))
  match requests.find? (fun r => r.id == id) with
  | some existing =>
    let requests := updateFirst (fun r => r.id == id)
      (fun r => { r with lastSeenAt := now, meta := mergeMeta r.meta meta }) requests
    ((existing.code, false), { store with requests := requests })
  | none =>
    let requests :=
      if MAX_PENDING ≤ requests.length then (sortByCreatedAsc requests).drop 1 else requests
    let cleaned := meta.filter (fun e => e.2.isSome)
    let req : PairingRequest :=
      { id := id, code := newCode, createdAt := now, lastSeenAt := now, meta := cleaned }
    ((newCode, true), { store with requests := requests ++ [req] })

/-- `buildPairingReply` from `pairing.ts`. -/
def buildPairingReply (idLine code : String) : String :=
  "🔐 **Pairing required**\n\n" ++ idLine ++ "\n\nYour pairing code: `" ++ code ++
    "`\n\nAsk the owner to approve: `openclaw pairing approve rocketchat " ++ code ++ "`"

/-- The persisted allow-list document (`{version, entries}`). -/
structure AllowFromStore where
  version : Int
  entries : List String
deriving DecidableEq, Repr

/-- `addToAllowFrom` from `pairing.ts`: lowercase + trim, then append only if
not already present (append-only set semantics). -/
def addToAllowFrom (store : AllowFromStore) (entry : String) : AllowFromStore :=
  let normalized := strTrim (strLower entry)
  if store.entries.contains normalized then store
  else { store with entries := store.entries ++ [normalized] }

/-! ## Role / approver resolution (`roles.ts`, `realtime.ts`) -/

/-- `isApprover` from `roles.ts`.  `rolesOf` stands for the remote
`fetchUserRoles` lookup: `none` models a failed lookup (network error or
unknown user), which the source treats as "no roles, no match". -/
def isApprover (rolesOf : String → Option (List String)) (userId : String)
    (username : Option String) (patterns : List String) : Bool :=
  patterns.any (fun pat =>
    let t := strTrim pat
    if strIsEmpty t then false
    else if strStarts t "@" then
      username.map strLower == some (strLower (strDrop t 1))
    else if strStarts t "role:" then
      match rolesOf userId with
      | some roles => roles.any (fun r => strLower r == strLower (strDrop t 5))
      | none => false
    else if t == userId then true
    else username.map strLower == some (strLower t))

/-- `checkIsApprover` from `realtime.ts`: resolve a username to an approver
decision.  `userIdOf` stands for the remote `fetchUserByUsername` lookup
(`none` models "user not found" or a network failure). -/
def checkIsApprover (userIdOf : String → Option String)
    (rolesOf : String → Option (List String)) (username : String)
    (approverPatterns : List String) : Bool :=
  if approverPatterns.isEmpty then false
  else
    let normalizedUsername := strLower username
    if approverPatterns.any (fun pat =>
        strStarts pat "@" && strLower (strDrop pat 1) == normalizedUsername) then true
    else
      match userIdOf username with
      | none => false
      | some uid => isApprover rolesOf uid (some username) approverPatterns

/-! ## DM access control (`handleIncomingMessage` in `realtime.ts`) -/

/-- `normalizeAllowEntry` from `handleIncomingMessage`:
`trim`, strip a leading `rocketchat:`/`user:` prefix case-insensitively,
strip a leading `@`, lowercase. -/
def normalizeAllowEntry (entry : String) : String :=
  let t := strTrim entry
  let t :=
    if strStarts (strLower t) "rocketchat:" then strDrop t 11
    else if strStarts (strLower t) "user:" then strDrop t 5
    else t
  let t := if strStarts t "@" then strDrop t 1 else t
  strLower t

/-- The DM allow-list check of `handleIncomingMessage`: store entries plus
normalized config entries, matched against `*`, the normalized sender id, or
the normalized sender username (skipped for an empty username, which is falsy
in the source). -/
def isAllowedDm (storeEntries : List String) (configAllowFrom : List String)
    (senderId senderUsername : String) : Bool :=
  let allAllowFrom := storeEntries ++ configAllowFrom.map normalizeAllowEntry
  let normalizedSenderId := normalizeAllowEntry senderId
  let normalizedUsername :=
    if strIsEmpty senderUsername then none else some (normalizeAllowEntry senderUsername)
  allAllowFrom.any (fun entry =>
    entry == "*" || entry == normalizedSenderId ||
    (match normalizedUsername with
     | some u => entry == u
     | none => false))

/-- Routing of one `notifyChannels` entry to a send target (`@name` →
`user:name`, `room:x` kept, `#chan` → `room:chan`, bare → `room:entry`). -/
def notifyTarget (channel : String) : String :=
  if strStarts channel "@" then "user:" ++ strDrop channel 1
  else if strStarts channel "room:" then channel
  else if strStarts channel "#" then "room:" ++ strDrop channel 1
  else "room:" ++ channel

/-- `buildApprovalRequestMessage` (DM variant) from `approval-commands.ts`. -/
def buildApprovalRequestMessageDm (targetId : String)
    (targetName targetUsername : Option String) : String :=
  let who :=
    match targetUsername with
    | some u => "@" ++ u
    | none => targetName.getD targetId
  let handle := targetUsername.getD targetId
  "🔔 **New DM request**\n\nUser: " ++ who ++
    "\n\n**React to this message:**\n• ✅ to approve\n• ❌ to deny\n\nOr reply:\n• `--approve " ++
    handle ++ "`\n• `--deny " ++ handle ++ "`"

/-- `buildWaitingMessage` from `approval-commands.ts`. -/
def buildWaitingMessage : String :=
  "⏳ Your request is pending approval. The owner has been notified."

/-- The account configuration consumed by the DM gate. -/
structure DmConfig where
  dmPolicy : String
  allowFrom : List String
  ownerEnabled : Bool
  approvers : List String
  notifyChannels : List String
  timeout : Option Int
deriving DecidableEq, Repr

/-- The three persisted stores the DM gate reads and writes. -/
structure DmStores where
  allowDm : AllowFromStore
  pairing : PairingStore
  approvals : ApprovalStore
deriving DecidableEq, Repr

/-- Whether the DM gate lets the message continue to normal processing
(`forwarded`) or stops it (`dropped`). -/
inductive DmResult where
  | forwarded
  | dropped
deriving DecidableEq, Repr

/-- Result of running the DM gate: the decision, the `(target, text)` pairs
sent through the send boundary, and the updated stores. -/
structure DmOutcome where
  result : DmResult
  sends : List (String × String)
  stores : DmStores
deriving DecidableEq, Repr

/-- The owner-approval flow for a non-approver DM sender (the `else` branch of
the `isApprover` test in `handleIncomingMessage`): look for an existing
record; an `approved` record re-allows the sender; otherwise create (or
refresh) the pending approval and, exactly when the record is freshly
created (`createdAt === lastNotifiedAt`), send one notification per
`notifyChannels` entry plus the "waiting" notice.  Sent notification message
ids are synthesised as `notif-<index>`, standing for the ids the send
boundary returns. -/
def dmOwnerApprovalFlow (cfg : DmConfig) (st : DmStores)
    (senderId senderUsername senderName rid freshApprovalId : String) (now : Int) :
    DmOutcome :=
  let params : CreateApprovalParams :=
    { kind := .dm
      targetId := senderId
      targetName := some senderName
      targetUsername := some senderUsername
      requesterId := senderId
      requesterName := some senderName
      requesterUsername := some senderUsername
      replyRoomId := rid
      timeoutMs := match cfg.timeout with
        | some t => if t == 0 then none else some (t * 1000)
        | none => none }
  let (approval, approvals') := createApproval st.approvals params freshApprovalId now
  if approval.createdAt == approval.lastNotifiedAt then
    let notifyMessage :=
      buildApprovalRequestMessageDm senderId (some senderName) (some senderUsername)
    let notifySends := cfg.notifyChannels.map (fun c => (notifyTarget c, notifyMessage))
    let notifyIds := cfg.notifyChannels.enum.map
      (fun e => (notifyTarget e.2, "notif-" ++ toString e.1))
    let approvals'' :=
      if notifyIds.isEmpty then approvals'
      else updateApprovalNotifyMessages approvals' approval.id notifyIds
    { result := .dropped
      sends := notifySends ++ [("room:" ++ rid, buildWaitingMessage)]
      stores := { st with approvals := approvals'' } }
  else
    { result := .dropped, sends := [], stores := { st with approvals := approvals' } }

/-- The DM branch of `handleIncomingMessage` (`realtime.ts`): the layered
`dmPolicy` gate.  `forwarded` means the message passed this gate and reaches
the later layers / normal processing; everything after the gate is outside
this model. -/
def handleDm (cfg : DmConfig) (st : DmStores)
    (senderId senderUsername senderName rid : String)
    (rolesOf : String → Option (List String))
    (freshCode freshApprovalId : String) (now : Int) : DmOutcome :=
  if cfg.dmPolicy == "disabled" then { result := .dropped, sends := [], stores := st }
  else if cfg.dmPolicy == "open" then { result := .forwarded, sends := [], stores := st }
  else if isAllowedDm st.allowDm.entries cfg.allowFrom senderId senderUsername then
    { result := .forwarded, sends := [], stores := st }
  else if cfg.dmPolicy == "allowlist" then { result := .dropped, sends := [], stores := st }
  else if cfg.dmPolicy == "pairing" then
    let ((code, created), pairing') :=
      upsertChannelPairingRequest st.pairing senderId
        [("name", some senderName), ("username", some senderUsername)] freshCode now
    let st' := { st with pairing := pairing' }
    if created then
      let idLine := "Rocket.Chat user: " ++
        (if strIsEmpty senderUsername then senderId else "@" ++ senderUsername)
      { result := .dropped
        sends := [("room:" ++ rid, buildPairingReply idLine code)]
        stores := st' }
    else { result := .dropped, sends := [], stores := st' }
  else if cfg.dmPolicy == "owner-approval" then
    if !cfg.ownerEnabled then { result := .dropped, sends := [], stores := st }
    else if cfg.approvers.isEmpty then
      -- the whole approver/approval block is guarded by `approvers.length > 0`;
      -- with no approvers configured the code falls through to normal processing
      { result := .forwarded, sends := [], stores := st }
    else if isApprover rolesOf senderId (some senderUsername) cfg.approvers then
      { result := .forwarded, sends := [], stores := st }
    else
      match findPendingApproval st.approvals senderId (some .dm) with
      | some existing =>
        if existing.status == .approved then
          { result := .forwarded, sends := []
            stores := { st with allowDm := addToAllowFrom st.allowDm senderId } }
        else
          dmOwnerApprovalFlow cfg st senderId senderUsername senderName rid freshApprovalId now
      | none =>
        dmOwnerApprovalFlow cfg st senderId senderUsername senderName rid freshApprovalId now
  else { result := .forwarded, sends := [], stores := st }

/-- `find?` skips a head segment on which the predicate fails. -/
theorem find?_append_left_none {α : Type} (p : α → Bool) (l₁ l₂ : List α)
    (h : ∀ x ∈ l₁, p x = false) : (l₁ ++ l₂).find? p = l₂.find? p := by
  induction l₁ with
  | nil => simp
  | cons x xs ih =>
    rw [List.cons_append, List.find?_cons_of_neg _ (by simp [h x (List.mem_cons_self x xs)])]
    exact ih (fun y hy => h y (List.mem_cons_of_mem x hy))

/-- A record matching the duplicate test of `createApproval` also matches
`findPendingApproval`'s matcher for the same target and type. -/
theorem sameTargetPending_imp_pendingMatches (target : String) (kind : ApprovalType)
    (p : PendingApproval) (h : sameTargetPending target kind p = true) :
    pendingMatches target (some kind) p = true := by
  rw [sameTargetPending_eq_true_iff] at h
  obtain ⟨htid, hkind, hstat⟩ := h
  simp [pendingMatches, hstat, hkind, htid]

/-- Branch selection for the DM gate under `owner-approval` with a non-approver
sender: the gate reduces to the match on the pending-approval lookup. -/
theorem handleDm_ownerApproval_nonapprover
    (cfg : DmConfig) (st : DmStores) (senderId senderUsername senderName rid : String)
    (rolesOf : String → Option (List String)) (code aid : String) (t : Int)
    (hpol : cfg.dmPolicy = "owner-approval")
    (hen : cfg.ownerEnabled = true)
    (happ : cfg.approvers.isEmpty = false)
    (hallow : isAllowedDm st.allowDm.entries cfg.allowFrom senderId senderUsername = false)
    (hap : isApprover rolesOf senderId (some senderUsername) cfg.approvers = false) :
    handleDm cfg st senderId senderUsername senderName rid rolesOf code aid t =
      match findPendingApproval st.approvals senderId (some .dm) with
      | some existing =>
        if existing.status == .approved then
          { result := .forwarded, sends := []
            stores := { st with allowDm := addToAllowFrom st.allowDm senderId } }
        else
          dmOwnerApprovalFlow cfg st senderId senderUsername senderName rid aid t
      | none =>
        dmOwnerApprovalFlow cfg st senderId senderUsername senderName rid aid t := by
  unfold handleDm
  rw [hpol, hallow]
  simp only [show (("owner-approval" : String) == "disabled") = false from by decide,
    show (("owner-approval" : String) == "open") = false from by decide,
    show (("owner-approval" : String) == "allowlist") = false from by decide,
    show (("owner-approval" : String) == "pairing") = false from by decide,
    show (("owner-approval" : String) == "owner-approval") = true from by decide,
    hen, happ, hap, Bool.false_eq_true, if_false, if_true, Bool.not_true]

/-- Branch selection for the DM gate under `owner-approval` with an approver
sender: forwarded untouched. -/
theorem handleDm_ownerApproval_approver
    (cfg : DmConfig) (st : DmStores) (senderId senderUsername senderName rid : String)
    (rolesOf : String → Option (List String)) (code aid : String) (t : Int)
    (hpol : cfg.dmPolicy = "owner-approval")
    (hen : cfg.ownerEnabled = true)
    (happ : cfg.approvers.isEmpty = false)
    (hallow : isAllowedDm st.allowDm.entries cfg.allowFrom senderId senderUsername = false)
    (hap : isApprover rolesOf senderId (some senderUsername) cfg.approvers = true) :
    handleDm cfg st senderId senderUsername senderName rid rolesOf code aid t =
      { result := .forwarded, sends := [], stores := st } := by
  unfold handleDm
  rw [hpol, hallow]
  simp only [show (("owner-approval" : String) == "disabled") = false from by decide,
    show (("owner-approval" : String) == "open") = false from by decide,
    show (("owner-approval" : String) == "allowlist") = false from by decide,
    show (("owner-approval" : String) == "pairing") = false from by decide,
    show (("owner-approval" : String) == "owner-approval") = true from by decide,
    hen, happ, hap, Bool.false_eq_true, if_false, if_true, Bool.not_true]

/-- The pending record freshly created by the DM owner-approval flow,
parameterised by its tracked notification messages. -/
def freshDmRecord (cfg : DmConfig) (senderId senderUsername senderName rid aid : String)
    (t : Int) (nm : List (String × String)) : PendingApproval :=
  { id := aid
    kind := .dm
    targetId := senderId
    targetName := some senderName
    targetUsername := some senderUsername
    requesterId := senderId
    requesterName := some senderName
    requesterUsername := some senderUsername
    replyRoomId := rid
    createdAt := t
    lastNotifiedAt := t
    expiresAt := Option.map (fun x => t + x)
      (match cfg.timeout with
       | some x => if (x == 0) = true then none else some (x * 1000)
       | none => none)
    status := .pending
    decidedBy := none
    decidedAt := none
    notifyMessages := nm }

/-- The owner-approval flow on a sender with no pending-or-matching record:
one fresh pending record is appended, one notification per `notifyChannels`
entry plus the waiting notice is sent, and the message is dropped. -/
theorem dmOwnerApprovalFlow_fresh
    (cfg : DmConfig) (st : DmStores) (senderId senderUsername senderName rid aid : String)
    (t : Int)
    (hdup : st.approvals.pending.find? (sameTargetPending senderId ApprovalType.dm) = none)
    (hid : ∀ p ∈ st.approvals.pending, (p.id == aid) = false) :
    ∃ rec,
      dmOwnerApprovalFlow cfg st senderId senderUsername senderName rid aid t =
        { result := .dropped
          sends := cfg.notifyChannels.map (fun c => (notifyTarget c,
            buildApprovalRequestMessageDm senderId (some senderName) (some senderUsername))) ++
            [("room:" ++ rid, buildWaitingMessage)]
          stores := { st with approvals := { st.approvals with
            pending := st.approvals.pending ++ [rec] } } } ∧
      rec.status = .pending ∧ rec.kind = .dm ∧ rec.targetId = senderId ∧
      rec.createdAt = t ∧ rec.lastNotifiedAt = t := by
  unfold dmOwnerApprovalFlow createApproval
  dsimp only
  rw [hdup]
  dsimp only
  rw [if_pos (by simp)]
  cases hnc : cfg.notifyChannels with
  | nil =>
    refine ⟨freshDmRecord cfg senderId senderUsername senderName rid aid t [], ?_,
      rfl, rfl, rfl, rfl, rfl⟩
    simp [freshDmRecord]
  | cons c cs =>
    refine ⟨freshDmRecord cfg senderId senderUsername senderName rid aid t
      ((c :: cs).enum.map (fun e => (notifyTarget e.2, "notif-" ++ toString e.1))), ?_,
      rfl, rfl, rfl, rfl, rfl⟩
    rw [if_neg (by simp)]
    unfold updateApprovalNotifyMessages
    have hupd := updateFirst_append (fun p => p.id == aid)
      (fun p => { p with notifyMessages :=
        (c :: cs).enum.map (fun e => (notifyTarget e.2, "notif-" ++ toString e.1)) })
      st.approvals.pending
      (freshDmRecord cfg senderId senderUsername senderName rid aid t []) [] hid (by
        simp [freshDmRecord])
    simp only [freshDmRecord] at hupd ⊢
    simp only [beq_iff_eq] at hupd ⊢
    simp [hupd]

/-- The owner-approval flow when the sender already has the (unique, last)
pending record and the repeat arrives at a different instant: the record's
`lastNotifiedAt` is refreshed, nothing is sent, and the message is dropped. -/
theorem dmOwnerApprovalFlow_repeat
    (cfg : DmConfig) (st : DmStores) (senderId senderUsername senderName rid aid : String)
    (t2 : Int) (old : List PendingApproval) (rec : PendingApproval)
    (hpend : st.approvals.pending = old ++ [rec])
    (hold : ∀ p ∈ old, sameTargetPending senderId ApprovalType.dm p = false)
    (hrec : sameTargetPending senderId ApprovalType.dm rec = true)
    (hneq : (rec.createdAt == t2) = false) :
    dmOwnerApprovalFlow cfg st senderId senderUsername senderName rid aid t2 =
      { result := .dropped, sends := []
        stores := { st with approvals := { st.approvals with
          pending := old ++ [{ rec with lastNotifiedAt := t2 }] } } } := by
  unfold dmOwnerApprovalFlow createApproval
  dsimp only
  rw [hpend, find?_append_left_none _ old _ hold, List.find?_cons_of_pos _ hrec]
  dsimp only
  rw [if_neg (by simp only [hneq]; exact Bool.false_ne_true)]
  rw [updateFirst_append _ _ old rec [] hold hrec]

/-- **C1 (amended).**  For a DM with `dmPolicy = "owner-approval"`, owner
approval enabled, a *non-empty* configured approver list, and a sender not in
the DM allow-list: (a) a sender matching a configured approver pattern is
forwarded with no side effects (the gate is bypassed regardless of the
allow-list); (b) a non-approver's first DM (no pending approval exists for
the sender; the generated record id is fresh) is not forwarded, sends exactly
one notification per `notifyChannels` entry plus one waiting notice, and
creates exactly one new pending approval for the sender; and (c) a repeat DM
at a different instant while that approval is still pending is silently
dropped: no sends and no new record.  The claim as frozen omits the
non-empty-approvers precondition; with zero configured approver patterns the
code forwards the DM instead (see `C1_counterexample`). -/
theorem C1_owner_approval_gate
    (cfg : DmConfig) (st : DmStores) (senderId senderUsername senderName rid : String)
    (rolesOf : String → Option (List String))
    (code1 aid1 code2 aid2 : String) (t1 t2 : Int)
    (out1 out2 : DmOutcome)
    (hpol : cfg.dmPolicy = "owner-approval")
    (hen : cfg.ownerEnabled = true)
    (happ : cfg.approvers.isEmpty = false)
    (hallow : isAllowedDm st.allowDm.entries cfg.allowFrom senderId senderUsername = false)
    (hout1 : out1 = handleDm cfg st senderId senderUsername senderName rid rolesOf
      code1 aid1 t1)
    (hout2 : out2 = handleDm cfg out1.stores senderId senderUsername senderName rid rolesOf
      code2 aid2 t2) :
    (isApprover rolesOf senderId (some senderUsername) cfg.approvers = true →
      out1 = { result := .forwarded, sends := [], stores := st }) ∧
    (isApprover rolesOf senderId (some senderUsername) cfg.approvers = false →
     findPendingApproval st.approvals senderId (some .dm) = none →
     (∀ p ∈ st.approvals.pending, (p.id == aid1) = false) →
     t1 ≠ t2 →
      out1.result = .dropped ∧
      out1.sends.length = cfg.notifyChannels.length + 1 ∧
      out1.stores.approvals.pending.length = st.approvals.pending.length + 1 ∧
      (∃ rec, findPendingApproval out1.stores.approvals senderId (some .dm) = some rec ∧
        rec.status = .pending ∧ rec.kind = .dm ∧ rec.targetId = senderId ∧
        rec.createdAt = t1) ∧
      out2.result = .dropped ∧
      out2.sends = [] ∧
      out2.stores.approvals.pending.length = out1.stores.approvals.pending.length) := by
  constructor
  · intro hap
    rw [hout1,
      handleDm_ownerApproval_approver cfg st senderId senderUsername senderName rid rolesOf
        code1 aid1 t1 hpol hen happ hallow hap]
  · intro hap hfind hid hneq
    have hmatchfail : ∀ p ∈ st.approvals.pending,
        pendingMatches senderId (some ApprovalType.dm) p = false := by
      intro p hp
      have := List.find?_eq_none.mp hfind p hp
      simpa using this
    have hdup : st.approvals.pending.find? (sameTargetPending senderId ApprovalType.dm) =
        none := by
      rw [List.find?_eq_none]
      intro p hp
      have h1 := hmatchfail p hp
      cases hb : sameTargetPending senderId ApprovalType.dm p with
      | false => simp
      | true =>
        have := sameTargetPending_imp_pendingMatches senderId ApprovalType.dm p hb
        rw [h1] at this
        exact absurd this Bool.false_ne_true
    obtain ⟨rec, hflow, hst, hk, htid, hcr, hln⟩ :=
      dmOwnerApprovalFlow_fresh cfg st senderId senderUsername senderName rid aid1 t1
        hdup hid
    have h1 : out1 = dmOwnerApprovalFlow cfg st senderId senderUsername senderName rid
        aid1 t1 := by
      rw [hout1,
        handleDm_ownerApproval_nonapprover cfg st senderId senderUsername senderName rid
          rolesOf code1 aid1 t1 hpol hen happ hallow hap, hfind]
    have hrecmatch : pendingMatches senderId (some ApprovalType.dm) rec = true := by
      apply sameTargetPending_imp_pendingMatches
      rw [sameTargetPending_eq_true_iff]
      exact ⟨htid, hk, hst⟩
    have hsame : sameTargetPending senderId ApprovalType.dm rec = true := by
      rw [sameTargetPending_eq_true_iff]
      exact ⟨htid, hk, hst⟩
    have hold : ∀ p ∈ st.approvals.pending,
        sameTargetPending senderId ApprovalType.dm p = false := by
      intro p hp
      cases hb : sameTargetPending senderId ApprovalType.dm p with
      | false => rfl
      | true =>
        have := sameTargetPending_imp_pendingMatches senderId ApprovalType.dm p hb
        rw [hmatchfail p hp] at this
        exact absurd this Bool.false_ne_true
    -- the state after the first DM
    set stores1 : DmStores :=
      { st with approvals := { st.approvals with
          pending := st.approvals.pending ++ [rec] } } with hstores1
    have hfind2 : findPendingApproval stores1.approvals senderId (some ApprovalType.dm) =
        some rec := by
      unfold findPendingApproval
      rw [hstores1]
      dsimp only
      rw [find?_append_left_none _ _ _ hmatchfail, List.find?_cons_of_pos _ hrecmatch]
    have hout1stores : out1.stores = stores1 := by
      rw [h1, hflow]
    have h2 : out2 = dmOwnerApprovalFlow cfg stores1 senderId senderUsername senderName rid
        aid2 t2 := by
      rw [hout2, hout1stores,
        handleDm_ownerApproval_nonapprover cfg stores1 senderId senderUsername senderName rid
          rolesOf code2 aid2 t2 hpol hen happ (by rw [hstores1]; exact hallow) hap,
        hfind2]
      dsimp only
      rw [if_neg (by simp [hst])]
    have hrepeat := dmOwnerApprovalFlow_repeat cfg stores1 senderId senderUsername senderName
      rid aid2 t2 st.approvals.pending rec (by rw [hstores1]) hold hsame
      (by simp only [hcr]; exact beq_eq_false_iff_ne.mpr hneq)
    rw [hrepeat] at h2
    rw [h1, hflow, h2]
    refine ⟨rfl, by simp, by simp, ⟨rec, ?_, hst, hk, htid, hcr⟩, rfl, rfl, by simp⟩
    have := hfind2
    rw [hstores1] at this
    exact this

/-- DM-gate configuration with owner approval enabled and no approvers
configured (used by the C1 counterexample). -/
def cexCfg : DmConfig :=
  { dmPolicy := "owner-approval", allowFrom := [], ownerEnabled := true,
    approvers := [], notifyChannels := ["#mods"], timeout := none }

/-- Empty stores. -/
def emptyStores : DmStores :=
  { allowDm := { version := 1, entries := [] },
    pairing := { version := 1, requests := [] },
    approvals := { version := 1, pending := [] } }

/-- Counterexample to C1 as frozen: sender `u9` is not in the DM allow-list
and matches no configured approver pattern (there are none), yet the first DM
is *forwarded* — no `PendingApproval` is created, no notification and no
waiting notice is sent — because the whole approval block is guarded by
`approvers.length > 0`. -/
theorem C1_counterexample :
    isAllowedDm emptyStores.allowDm.entries cexCfg.allowFrom "u9" "mallory" = false ∧
    isApprover (fun _ => none) "u9" (some "mallory") cexCfg.approvers = false ∧
    handleDm cexCfg emptyStores "u9" "mallory" "Mallory" "dm9" (fun _ => none) "c0" "a0" 100 =
      { result := .forwarded, sends := [], stores := emptyStores } := by
  decide

/-- Role lookup that always fails (no remote roles). -/
def noRoles : String → Option (List String) := fun _ => none

/-- DM-gate configuration with one configured approver (`@boss`). -/
def wCfgOA : DmConfig :=
  { dmPolicy := "owner-approval", allowFrom := [], ownerEnabled := true,
    approvers := ["@boss"], notifyChannels := ["#mods", "@boss"], timeout := none }

/-- Witness for C1: a concrete non-approver DM is dropped with
`notifyChannels.length + 1` sends, and the repeat DM is silent. -/
theorem C1_witness :
    (handleDm wCfgOA emptyStores "u1" "alice" "Alice" "dm1" noRoles "c1" "a1" 100).result =
      DmResult.dropped ∧
    (handleDm wCfgOA emptyStores "u1" "alice" "Alice" "dm1" noRoles "c1" "a1" 100).sends.length =
      wCfgOA.notifyChannels.length + 1 ∧
    (handleDm wCfgOA
      (handleDm wCfgOA emptyStores "u1" "alice" "Alice" "dm1" noRoles "c1" "a1" 100).stores
      "u1" "alice" "Alice" "dm1" noRoles "c2" "a2" 200).sends = [] := by
  have h := (C1_owner_approval_gate wCfgOA emptyStores "u1" "alice" "Alice" "dm1" noRoles
    "c1" "a1" "c2" "a2" 100 200 _ _ rfl rfl (by decide) (by decide) rfl rfl).2
    (by decide) (by decide) (by decide) (by decide)
  exact ⟨h.1, h.2.1, h.2.2.2.2.2.1⟩

/-- Membership through the ascending insertion (pairing eviction sort). -/
theorem mem_insertByCreatedAsc {r x : PairingRequest} {l : List PairingRequest}
    (h : x ∈ insertByCreatedAsc r l) : x = r ∨ x ∈ l := by
  induction l with
  | nil => simpa [insertByCreatedAsc] using h
  | cons q qs ih =>
    simp only [insertByCreatedAsc] at h
    split at h
    · rcases List.mem_cons.mp h with rfl | h'
      · exact Or.inl rfl
      · exact Or.inr h'
    · rcases List.mem_cons.mp h with rfl | h'
      · exact Or.inr (List.mem_cons_self x qs)
      · rcases ih h' with h'' | h''
        · exact Or.inl h''
        · exact Or.inr (List.mem_cons_of_mem q h'')

/-- Membership through `sortByCreatedAsc`. -/
theorem mem_sortByCreatedAsc {x : PairingRequest} {l : List PairingRequest}
    (h : x ∈ sortByCreatedAsc l) : x ∈ l := by
  induction l with
  | nil => simp [sortByCreatedAsc] at h
  | cons q qs ih =>
    simp only [sortByCreatedAsc] at h
    rcases mem_insertByCreatedAsc h with rfl | h'
    · exact List.mem_cons_self x qs
    · exact List.mem_cons_of_mem q (ih h')

/-- `upsertChannelPairingRequest` on an id with no request in the store: a
fresh request (code `newCode`, `createdAt = lastSeenAt = now`) is appended
after possible purging/eviction, and `created = true` is reported. -/
theorem upsert_fresh (store : PairingStore) (id : String)
    (meta : List (String × Option String)) (newCode : String) (now : Int)
    (hfresh : ∀ r ∈ store.requests, (r.id == id) = false) :
    ∃ base,
      upsertChannelPairingRequest store id meta newCode now =
        ((newCode, true), { store with requests := base ++
          [{ id := id, code := newCode, createdAt := now, lastSeenAt := now,
             meta := meta.filter (fun e => e.2.isSome) }] }) ∧
      ∀ r ∈ base, r ∈ store.requests := by
  unfold upsertChannelPairingRequest
  dsimp only
  have hmemfilter : ∀ r ∈ store.requests.filter
      (fun r => decide (r.createdAt > now - PAIRING_TTL_MS)), r ∈ store.requests :=
    fun r hr => List.mem_of_mem_filter hr
  have hnone : (store.requests.filter
      (fun r => decide (r.createdAt > now - PAIRING_TTL_MS))).find?
        (fun r => r.id == id) = none := by
    rw [List.find?_eq_none]
    intro r hr
    simp [hfresh r (hmemfilter r hr)]
  rw [hnone]
  by_cases hlen : MAX_PENDING ≤ (store.requests.filter
      (fun r => decide (r.createdAt > now - PAIRING_TTL_MS))).length
  · rw [if_pos hlen]
    refine ⟨_, rfl, ?_⟩
    intro r hr
    exact hmemfilter r (mem_sortByCreatedAsc (List.mem_of_mem_drop hr))
  · rw [if_neg hlen]
    exact ⟨_, rfl, hmemfilter⟩

/-- `upsertChannelPairingRequest` on a store whose last request belongs to the
id and is still fresh: the request's `lastSeenAt` is refreshed (meta merged),
its original code is reported with `created = false`, and nothing else is
added. -/
theorem upsert_existing (store : PairingStore) (id : String)
    (meta : List (String × Option String)) (newCode : String) (now : Int)
    (base : List PairingRequest) (req : PairingRequest)
    (hreqs : store.requests = base ++ [req])
    (hbase : ∀ r ∈ base, (r.id == id) = false)
    (hreqid : (req.id == id) = true)
    (hfreshreq : decide (req.createdAt > now - PAIRING_TTL_MS) = true) :
    ∃ base',
      upsertChannelPairingRequest store id meta newCode now =
        ((req.code, false), { store with requests := base' ++
          [{ req with lastSeenAt := now, meta := mergeMeta req.meta meta }] }) ∧
      ∀ r ∈ base', (r.id == id) = false := by
  unfold upsertChannelPairingRequest
  dsimp only
  rw [hreqs, List.filter_append]
  have hfq : List.filter (fun r => decide (r.createdAt > now - PAIRING_TTL_MS)) [req] =
      [req] := by
    simp [List.filter, hfreshreq]
  rw [hfq]
  have hbase' : ∀ r ∈ base.filter (fun r => decide (r.createdAt > now - PAIRING_TTL_MS)),
      (fun r => r.id == id) r = false := by
    intro r hr
    exact hbase r (List.mem_of_mem_filter hr)
  have hfind1 : List.find? (fun r : PairingRequest => r.id == id) [req] = some req := by
    simp [List.find?_cons, hreqid]
  rw [find?_append_left_none _ _ _ hbase', hfind1]
  rw [updateFirst_append (fun r => r.id == id) _ _ req [] hbase' hreqid]
  exact ⟨_, rfl, fun r hr => hbase r (List.mem_of_mem_filter hr)⟩

/-- Branch selection for the DM gate under `pairing` when the upsert creates a
fresh request: exactly one pairing-code reply is sent and the message is
dropped. -/
theorem handleDm_pairing_created
    (cfg : DmConfig) (st : DmStores) (senderId senderUsername senderName rid : String)
    (rolesOf : String → Option (List String)) (code aid : String) (t : Int)
    (c : String) (P : PairingStore)
    (hpol : cfg.dmPolicy = "pairing")
    (hallow : isAllowedDm st.allowDm.entries cfg.allowFrom senderId senderUsername = false)
    (hup : upsertChannelPairingRequest st.pairing senderId
      [("name", some senderName), ("username", some senderUsername)] code t = ((c, true), P)) :
    handleDm cfg st senderId senderUsername senderName rid rolesOf code aid t =
      { result := .dropped
        sends := [("room:" ++ rid, buildPairingReply ("Rocket.Chat user: " ++
          (if strIsEmpty senderUsername then senderId else "@" ++ senderUsername)) c)]
        stores := { st with pairing := P } } := by
  unfold handleDm
  rw [hpol, hallow]
  simp only [show (("pairing" : String) == "disabled") = false from by decide,
    show (("pairing" : String) == "open") = false from by decide,
    show (("pairing" : String) == "allowlist") = false from by decide,
    show (("pairing" : String) == "pairing") = true from by decide,
    Bool.false_eq_true, if_false, if_true]
  rw [hup]
  rfl

/-- Branch selection for the DM gate under `pairing` when the upsert refreshes
an existing request: nothing is sent and the message is dropped. -/
theorem handleDm_pairing_existing
    (cfg : DmConfig) (st : DmStores) (senderId senderUsername senderName rid : String)
    (rolesOf : String → Option (List String)) (code aid : String) (t : Int)
    (c : String) (P : PairingStore)
    (hpol : cfg.dmPolicy = "pairing")
    (hallow : isAllowedDm st.allowDm.entries cfg.allowFrom senderId senderUsername = false)
    (hup : upsertChannelPairingRequest st.pairing senderId
      [("name", some senderName), ("username", some senderUsername)] code t =
        ((c, false), P)) :
    handleDm cfg st senderId senderUsername senderName rid rolesOf code aid t =
      { result := .dropped, sends := [], stores := { st with pairing := P } } := by
  unfold handleDm
  rw [hpol, hallow]
  simp only [show (("pairing" : String) == "disabled") = false from by decide,
    show (("pairing" : String) == "open") = false from by decide,
    show (("pairing" : String) == "allowlist") = false from by decide,
    show (("pairing" : String) == "pairing") = true from by decide,
    Bool.false_eq_true, if_false, if_true]
  rw [hup]
  rfl

/-- The meta object the DM gate passes to the pairing upsert. -/
def dmPairingMeta (senderName senderUsername : String) : List (String × Option String) :=
  [("name", some senderName), ("username", some senderUsername)]

/-- The request created by the first pairing DM. -/
def freshPairingRequest (senderId code : String) (t : Int)
    (senderName senderUsername : String) : PairingRequest :=
  { id := senderId
    code := code
    createdAt := t
    lastSeenAt := t
    meta := (dmPairingMeta senderName senderUsername).filter (fun e => e.2.isSome) }

/-- **C8.**  DM gate with `dmPolicy = "pairing"`: for a sender who is not in
the DM allow-list and has no pairing request yet, the first DM sends exactly
one pairing-code reply and creates a fresh request; a second DM from the same
sender while that request is within the TTL sends no additional reply but
updates the request's `lastSeenAt`; neither message is forwarded. -/
theorem C8_pairing_debounce
    (cfg : DmConfig) (st : DmStores) (senderId senderUsername senderName rid : String)
    (rolesOf : String → Option (List String))
    (code1 aid1 code2 aid2 : String) (t1 t2 : Int)
    (out1 out2 : DmOutcome)
    (hpol : cfg.dmPolicy = "pairing")
    (hallow : isAllowedDm st.allowDm.entries cfg.allowFrom senderId senderUsername = false)
    (hfresh : ∀ r ∈ st.pairing.requests, (r.id == senderId) = false)
    (httl : t2 - PAIRING_TTL_MS < t1)
    (hout1 : out1 = handleDm cfg st senderId senderUsername senderName rid rolesOf
      code1 aid1 t1)
    (hout2 : out2 = handleDm cfg out1.stores senderId senderUsername senderName rid rolesOf
      code2 aid2 t2) :
    out1.result = .dropped ∧
    out1.sends = [("room:" ++ rid, buildPairingReply ("Rocket.Chat user: " ++
      (if strIsEmpty senderUsername then senderId else "@" ++ senderUsername)) code1)] ∧
    out2.result = .dropped ∧
    out2.sends = [] ∧
    (∃ r, out2.stores.pairing.requests.find? (fun x => x.id == senderId) = some r ∧
      r.createdAt = t1 ∧ r.lastSeenAt = t2 ∧ r.code = code1) := by
  obtain ⟨base, hup1, hbasemem⟩ := upsert_fresh st.pairing senderId
    (dmPairingMeta senderName senderUsername) code1 t1 hfresh
  have h1 := handleDm_pairing_created cfg st senderId senderUsername senderName rid rolesOf
    code1 aid1 t1 code1 _ hpol hallow (by
      unfold dmPairingMeta at hup1
      exact hup1)
  rw [h1] at hout1
  have hout1stores : out1.stores = { st with pairing := { st.pairing with
      requests := base ++ [freshPairingRequest senderId code1 t1 senderName senderUsername] } } := by
    rw [hout1]
    unfold freshPairingRequest dmPairingMeta
    rfl
  obtain ⟨base', hup2, hbase'⟩ := upsert_existing
    { st.pairing with
        requests := base ++ [freshPairingRequest senderId code1 t1 senderName senderUsername] }
    senderId (dmPairingMeta senderName senderUsername) code2 t2
    base (freshPairingRequest senderId code1 t1 senderName senderUsername) rfl
    (fun r hr => hfresh r (hbasemem r hr))
    (by simp [freshPairingRequest])
    (by simpa [freshPairingRequest] using httl)
  have h2 := handleDm_pairing_existing cfg out1.stores senderId senderUsername senderName rid
    rolesOf code2 aid2 t2 (freshPairingRequest senderId code1 t1 senderName senderUsername).code
    _ hpol (by rw [hout1stores]; exact hallow)
    (by
      rw [hout1stores]
      unfold dmPairingMeta at hup2
      exact hup2)
  rw [h2] at hout2
  refine ⟨by rw [hout1], by rw [hout1], by rw [hout2], by rw [hout2], ?_⟩
  refine ⟨{ freshPairingRequest senderId code1 t1 senderName senderUsername with
      lastSeenAt := t2
      meta := mergeMeta
        (freshPairingRequest senderId code1 t1 senderName senderUsername).meta
        (dmPairingMeta senderName senderUsername) }, ?_,
    by simp [freshPairingRequest], rfl, ?_⟩
  · rw [hout2]
    dsimp only
    have hsingle : List.find? (fun x : PairingRequest => x.id == senderId)
        [{ freshPairingRequest senderId code1 t1 senderName senderUsername with
            lastSeenAt := t2
            meta := mergeMeta
              (freshPairingRequest senderId code1 t1 senderName senderUsername).meta
              (dmPairingMeta senderName senderUsername) }] =
        some { freshPairingRequest senderId code1 t1 senderName senderUsername with
            lastSeenAt := t2
            meta := mergeMeta
              (freshPairingRequest senderId code1 t1 senderName senderUsername).meta
              (dmPairingMeta senderName senderUsername) } := by
      simp [List.find?_cons, freshPairingRequest]
    rw [find?_append_left_none _ _ _ hbase']
    exact hsingle
  · simp [freshPairingRequest]

/-- DM-gate configuration with `dmPolicy = "pairing"`. -/
def wCfgPair : DmConfig :=
  { dmPolicy := "pairing", allowFrom := [], ownerEnabled := false,
    approvers := [], notifyChannels := [], timeout := none }

/-- Witness for C8: concrete first and second pairing DM. -/
theorem C8_witness :
    (handleDm wCfgPair emptyStores "u1" "alice" "Alice" "dm1" noRoles "CODE1" "a1" 100).sends =
      [("room:dm1", buildPairingReply "Rocket.Chat user: @alice" "CODE1")] ∧
    (handleDm wCfgPair
      (handleDm wCfgPair emptyStores "u1" "alice" "Alice" "dm1" noRoles "CODE1" "a1" 100).stores
      "u1" "alice" "Alice" "dm1" noRoles "CODE2" "a2" 200).sends = [] ∧
    (∃ r, ((handleDm wCfgPair
      (handleDm wCfgPair emptyStores "u1" "alice" "Alice" "dm1" noRoles "CODE1" "a1" 100).stores
      "u1" "alice" "Alice" "dm1" noRoles "CODE2" "a2" 200).stores.pairing.requests.find?
        (fun x => x.id == "u1")) = some r ∧
      r.createdAt = 100 ∧ r.lastSeenAt = 200 ∧ r.code = "CODE1") := by
  have h := C8_pairing_debounce wCfgPair emptyStores "u1" "alice" "Alice" "dm1" noRoles
    "CODE1" "a1" "CODE2" "a2" 100 200 _ _ rfl (by decide) (by decide) (by decide) rfl rfl
  refine ⟨?_, h.2.2.2.1, h.2.2.2.2⟩
  have hs := h.2.1
  simpa using hs

/-! ## Realtime session (`RocketChatRealtime` in `realtime.ts`)

The class is modelled as a state machine driven by externally observable
events: `subscribeToRoom`/`callMethod` calls, socket lifecycle (`connStart` =
`connect()` opening a socket, `connected` = the DDP `connected` frame followed
by a successful login, `close` = the socket `close` event), server RPC
results, the reconnect timer firing, and `disconnect()`.  Ghost fields record
the externally requested room ids, every sub request ever sent (tagged with a
per-socket epoch), the begun/resolved/rejected RPC ids, and every scheduled
reconnect delay. -/

/-- The in-memory state of a `RocketChatRealtime` instance. -/
structure Session where
  /-- `desiredRoomIds` (a `Set`, kept in insertion order). -/
  desired : List String
  /-- `activeSubIdsByRoom` (a `Map`, kept in insertion order). -/
  active : List (String × Nat)
  /-- whether `ws` exists with `readyState === OPEN`. -/
  wsOpen : Bool
  /-- `isConnected`. -/
  isConnected : Bool
  /-- `messageId` (the counter behind `nextId()`). -/
  messageId : Nat
  /-- `reconnectDelayMs`. -/
  reconnectDelayMs : Nat
  /-- the delay of the scheduled reconnect timer, when one is pending. -/
  reconnectScheduled : Option Nat
  /-- `shouldReconnect`. -/
  shouldReconnect : Bool
  /-- ids of pending `callMethod` promises (`pendingCalls` keys). -/
  pendingCalls : List Nat
  /-- ghost: ids of resolved calls. -/
  resolvedCalls : List Nat
  /-- ghost: ids of rejected calls. -/
  rejectedCalls : List Nat
  /-- ghost: ids of every call ever begun. -/
  begunCalls : List Nat
  /-- ghost: the physical-connection epoch (bumped by each `connect()`). -/
  epoch : Nat
  /-- ghost: every `sub` request ever sent, as `(epoch, subId, roomId)`. -/
  subLog : List (Nat × Nat × String)
  /-- ghost: every room id ever passed to `subscribeToRoom` by callers. -/
  requested : List String
  /-- ghost: every reconnect delay actually scheduled. -/
  delayLog : List Nat
deriving DecidableEq, Repr

/-- The state of a freshly constructed instance. -/
def initSession : Session :=
  { desired := [], active := [], wsOpen := false, isConnected := false, messageId := 0,
    reconnectDelayMs := 5000, reconnectScheduled := none, shouldReconnect := true,
    pendingCalls := [], resolvedCalls := [], rejectedCalls := [], begunCalls := [],
    epoch := 0, subLog := [], requested := [], delayLog := [] }

/-- `Set.add` keeping insertion order. -/
def insertSet (x : String) (l : List String) : List String :=
  if l.contains x then l else l ++ [x]

/-- `subscribeToRoom` from `realtime.ts` (shared by external calls and
`resubscribeAll`): trim, remember in `desiredRoomIds`, and — only when
connected with an open socket and no active subscription for the room — send
a `sub` request under a fresh id. -/
def subscribeImpl (roomId : String) (s : Session) : Session :=
  let t := strTrim roomId
  if strIsEmpty t then s
  else
    let s := { s with desired := insertSet t s.desired }
    if !(s.isConnected && s.wsOpen) then s
    else if s.active.any (fun p => p.1 == t) then s
    else
      let i := s.messageId + 1
      { s with
          messageId := i
          active := s.active ++ [(t, i)]
          subLog := s.subLog ++ [(s.epoch, i, t)] }

/-- `connect()` opening a new socket: per-connection state is reset
(`isConnected = false`, `activeSubIdsByRoom.clear()`) and a new physical
connection (epoch) begins. -/
def connectStartStep (s : Session) : Session :=
  { s with isConnected := false, active := [], wsOpen := true, epoch := s.epoch + 1 }

/-- The `connected` handler in `handleMessage`: `login()` (one `callMethod`
that succeeds), `isConnected = true`, reset of the reconnect delay, then
`resubscribeAll()` — clear `activeSubIdsByRoom` and re-subscribe every
desired room. -/
def connectedStep (s : Session) : Session :=
  let i := s.messageId + 1
  let s := { s with
    messageId := i
    begunCalls := s.begunCalls ++ [i]
    resolvedCalls := s.resolvedCalls ++ [i] }
  let s := { s with isConnected := true, reconnectDelayMs := 5000 }
  let s := { s with active := [] }
  s.desired.foldl (fun acc r => subscribeImpl r acc) s

/-- `scheduleReconnect`: no-op when a timer is already pending; otherwise
schedule `min(reconnectDelayMs, 60000)` and double the delay up to the cap. -/
def scheduleReconnectStep (s : Session) : Session :=
  match s.reconnectScheduled with
  | some _ => s
  | none =>
    let d := min s.reconnectDelayMs 60000
    { s with
        reconnectScheduled := some d
        delayLog := s.delayLog ++ [d]
        reconnectDelayMs := min (s.reconnectDelayMs * 2) 60000 }

/-- The socket `close` handler: `isConnected = false`, all pending calls are
rejected with a `Disconnected` error, and — when `shouldReconnect` — a
reconnect is scheduled. -/
def closeStep (s : Session) : Session :=
  let s := { s with
    isConnected := false
    wsOpen := false
    rejectedCalls := s.rejectedCalls ++ s.pendingCalls
    pendingCalls := [] }
  if s.shouldReconnect then scheduleReconnectStep s else s

/-- `callMethod`: allocate the next id and register the pending promise (the
frame is sent only on an open socket, but the promise pends regardless). -/
def callBeginStep (s : Session) : Session :=
  let i := s.messageId + 1
  { s with messageId := i, pendingCalls := s.pendingCalls ++ [i], begunCalls := s.begunCalls ++ [i] }

/-- The `result` handler in `handleMessage`: a known id resolves (or, on an
RPC error, rejects) exactly its own pending call; unknown ids are ignored. -/
def callResultStep (i : Nat) (ok : Bool) (s : Session) : Session :=
  if s.pendingCalls.contains i then
    if ok then
      { s with pendingCalls := s.pendingCalls.filter (fun j => j ≠ i)
               resolvedCalls := s.resolvedCalls ++ [i] }
    else
      { s with pendingCalls := s.pendingCalls.filter (fun j => j ≠ i)
               rejectedCalls := s.rejectedCalls ++ [i] }
  else s

/-- `disconnect()`: disable reconnection, reject all pending calls, cancel a
scheduled reconnect, close the socket. -/
def disconnectStep (s : Session) : Session :=
  { s with
      shouldReconnect := false
      rejectedCalls := s.rejectedCalls ++ s.pendingCalls
      pendingCalls := []
      reconnectScheduled := none
      wsOpen := false
      isConnected := false }

/-- The reconnect timer firing: clear the timer and run `connect()`. -/
def reconnectFireStep (s : Session) : Session :=
  connectStartStep { s with reconnectScheduled := none }

/-- Externally observable events driving the session. -/
inductive Ev where
  | subscribe (roomId : String)
  | connStart
  | connected
  | close
  | callBegin
  | callResult (id : Nat) (ok : Bool)
  | reconnectFire
  | disconnect
deriving DecidableEq, Repr

/-- One step of the session state machine. -/
def step (s : Session) : Ev → Session
  | .subscribe r => subscribeImpl r { s with requested := s.requested ++ [r] }
  | .connStart => connectStartStep s
  | .connected => connectedStep s
  | .close => closeStep s
  | .callBegin => callBeginStep s
  | .callResult i ok => callResultStep i ok s
  | .reconnectFire => reconnectFireStep s
  | .disconnect => disconnectStep s

/-- Protocol validity of an event in a state: `connect()` is only invoked on
a session without a live socket (at startup, or by the timer via
`reconnectFire`); the server sends exactly one `connected` frame per socket;
`close` fires on an open socket. -/
def evOk (s : Session) : Ev → Bool
  | .subscribe _ => true
  | .connStart => !s.wsOpen && s.reconnectScheduled.isNone && s.shouldReconnect
  | .connected => s.wsOpen && !s.isConnected
  | .close => s.wsOpen
  | .callBegin => true
  | .callResult _ _ => true
  | .reconnectFire => s.reconnectScheduled.isSome && !s.wsOpen
  | .disconnect => true

/-- A protocol-valid trace from a state. -/
def validFrom (s : Session) : List Ev → Bool
  | [] => true
  | e :: es => evOk s e && validFrom (step s e) es

/-- Run a trace from a state. -/
def runFrom (s : Session) (es : List Ev) : Session := es.foldl step s

/-- Run a trace from the initial state. -/
def runTrace (es : List Ev) : Session := runFrom initSession es

/-- A protocol-valid trace from the initial state. -/
def validTrace (es : List Ev) : Bool := validFrom initSession es

/-- The rooms subscribed on the current physical connection, in order. -/
def epochRooms (s : Session) : List String :=
  (s.subLog.filter (fun e => e.1 == s.epoch)).map (fun e => e.2.2)

/-- The canonical form of the requested-room list: trimmed, blanks dropped,
first occurrence kept (this is what `desiredRoomIds` holds). -/
def canonicalIds (l : List String) : List String :=
  l.foldl (fun acc r =>
    let t := strTrim r
    if strIsEmpty t then acc else insertSet t acc) []

/-- `insertSet` of an element already present is the identity. -/
theorem insertSet_of_mem {x : String} {l : List String} (h : x ∈ l) : insertSet x l = l := by
  unfold insertSet
  rw [if_pos (List.elem_iff.mpr h)]

/-- Effect of `resubscribeAll`'s loop (`foldl subscribeImpl`) over a list of
already-desired, trimmed, non-blank, pairwise-distinct rooms that have no
active subscription yet: each room is subscribed exactly once, under a fresh
id, in order; everything else is untouched. -/
theorem foldSub_spec (rs : List String) : ∀ (s : Session),
    s.isConnected = true → s.wsOpen = true →
    (∀ r ∈ rs, strTrim r = r ∧ strIsEmpty r = false) →
    rs.Nodup →
    (∀ r ∈ rs, ∀ p ∈ s.active, (p.1 == r) = false) →
    (∀ r ∈ rs, r ∈ s.desired) →
    (rs.foldl (fun acc r => subscribeImpl r acc) s).desired = s.desired ∧
    (rs.foldl (fun acc r => subscribeImpl r acc) s).requested = s.requested ∧
    (rs.foldl (fun acc r => subscribeImpl r acc) s).epoch = s.epoch ∧
    (rs.foldl (fun acc r => subscribeImpl r acc) s).isConnected = s.isConnected ∧
    (rs.foldl (fun acc r => subscribeImpl r acc) s).wsOpen = s.wsOpen ∧
    (rs.foldl (fun acc r => subscribeImpl r acc) s).reconnectDelayMs = s.reconnectDelayMs ∧
    (rs.foldl (fun acc r => subscribeImpl r acc) s).reconnectScheduled = s.reconnectScheduled ∧
    (rs.foldl (fun acc r => subscribeImpl r acc) s).shouldReconnect = s.shouldReconnect ∧
    (rs.foldl (fun acc r => subscribeImpl r acc) s).pendingCalls = s.pendingCalls ∧
    (rs.foldl (fun acc r => subscribeImpl r acc) s).resolvedCalls = s.resolvedCalls ∧
    (rs.foldl (fun acc r => subscribeImpl r acc) s).rejectedCalls = s.rejectedCalls ∧
    (rs.foldl (fun acc r => subscribeImpl r acc) s).begunCalls = s.begunCalls ∧
    (rs.foldl (fun acc r => subscribeImpl r acc) s).delayLog = s.delayLog ∧
    s.messageId ≤ (rs.foldl (fun acc r => subscribeImpl r acc) s).messageId ∧
    (rs.foldl (fun acc r => subscribeImpl r acc) s).active.map Prod.fst =
      s.active.map Prod.fst ++ rs ∧
    (∀ p ∈ (rs.foldl (fun acc r => subscribeImpl r acc) s).active,
      p ∈ s.active ∨ s.messageId < p.2) ∧
    (∃ news, (rs.foldl (fun acc r => subscribeImpl r acc) s).subLog = s.subLog ++ news ∧
      news.map (fun e => e.2.2) = rs ∧
      ∀ e ∈ news, e.1 = s.epoch ∧ s.messageId < e.2.1 ∧
        e.2.1 ≤ (rs.foldl (fun acc r => subscribeImpl r acc) s).messageId) := by
  induction rs with
  | nil =>
    intro s _ _ _ _ _ _
    refine ⟨rfl, rfl, rfl, rfl, rfl, rfl, rfl, rfl, rfl, rfl, rfl, rfl, rfl, le_refl _,
      by simp, fun p hp => Or.inl hp, [], by simp, by simp, by simp⟩
  | cons r rest ih =>
    intro s hconn hws htrim hnd hdisj hdes
    have htr := (htrim r (List.mem_cons_self r rest)).1
    have hne := (htrim r (List.mem_cons_self r rest)).2
    have hdisjr : ∀ p ∈ s.active, (p.1 == r) = false :=
      fun p hp => hdisj r (List.mem_cons_self r rest) p hp
    have hinsert : insertSet r s.desired = s.desired :=
      insertSet_of_mem (hdes r (List.mem_cons_self r rest))
    have hany : s.active.any (fun p => p.1 == r) = false := by
      rw [List.any_eq_false]
      intro p hp
      simp [hdisjr p hp]
    have hstep : subscribeImpl r s =
        { s with
            messageId := s.messageId + 1
            active := s.active ++ [(r, s.messageId + 1)]
            subLog := s.subLog ++ [(s.epoch, s.messageId + 1, r)] } := by
      unfold subscribeImpl
      simp only [htr]
      rw [if_neg (by simp [hne]), hinsert]
      have heta : ({ s with desired := s.desired } : Session) = s := rfl
      rw [heta]
      rw [if_neg (by simp [hconn, hws]), if_neg (by simp [hany])]
    rw [List.foldl_cons, hstep]
    set s₁ : Session :=
      { s with
          messageId := s.messageId + 1
          active := s.active ++ [(r, s.messageId + 1)]
          subLog := s.subLog ++ [(s.epoch, s.messageId + 1, r)] } with hs₁
    have hrne : ∀ r' ∈ rest, (r == r') = false := by
      intro r' hr'
      have : r ≠ r' := by
        intro hEq
        subst hEq
        exact (List.nodup_cons.mp hnd).1 hr'
      exact beq_eq_false_iff_ne.mpr this
    have hdisj₁ : ∀ r' ∈ rest, ∀ p ∈ s₁.active, (p.1 == r') = false := by
      intro r' hr' p hp
      rw [hs₁] at hp
      rcases List.mem_append.mp hp with hp' | hp'
      · exact hdisj r' (List.mem_cons_of_mem r hr') p hp'
      · have : p = (r, s.messageId + 1) := List.mem_singleton.mp hp'
        subst this
        exact hrne r' hr'
    obtain ⟨h1, h2, h3, h4, h5, h6, h7, h8, h9, h10, h11, h12, h13, h14, h15, hacts, news,
        hsub, hmap, hfresh⟩ :=
      ih s₁ hconn hws (fun x hx => htrim x (List.mem_cons_of_mem r hx))
        (List.nodup_cons.mp hnd).2 hdisj₁ (fun x hx => hdes x (List.mem_cons_of_mem r hx))
    refine ⟨h1, h2, h3, h4, h5, h6, h7, h8, h9, h10, h11, h12, h13,
      le_trans (Nat.le_succ _) h14, ?_, ?_, (s.epoch, s.messageId + 1, r) :: news, ?_,
      ?_, ?_⟩
    · rw [h15, hs₁]
      simp
    · intro p hp
      rcases hacts p hp with hp' | hp'
      · rw [hs₁] at hp'
        rcases List.mem_append.mp hp' with hp'' | hp''
        · exact Or.inl hp''
        · rw [List.mem_singleton.mp hp'']
          exact Or.inr (Nat.lt_succ_self _)
      · rw [hs₁] at hp'
        exact Or.inr (Nat.lt_of_le_of_lt (Nat.le_succ _) hp')
    · rw [hsub, hs₁]
      simp
    · rw [List.map_cons, hmap]
    · intro e he
      rcases List.mem_cons.mp he with rfl | he'
      · exact ⟨rfl, Nat.lt_succ_self _, h14⟩
      · have := hfresh e he'
        rw [hs₁] at this
        exact ⟨this.1, Nat.lt_of_le_of_lt (Nat.le_succ _) this.2.1, this.2.2⟩

/-- The head of `dropWhile p` never satisfies `p`. -/
theorem head?_dropWhile_not (p : Char → Bool) (l : List Char) :
    ∀ x, (l.dropWhile p).head? = some x → p x = false := by
  induction l with
  | nil => intro x h; simp [List.dropWhile] at h
  | cons a as ih =>
    intro x h
    rw [List.dropWhile_cons] at h
    split at h
    · exact ih x h
    · simp_all

/-- `dropWhile` is the identity when the head does not satisfy the predicate. -/
theorem dropWhile_eq_self_of_head (p : Char → Bool) (l : List Char)
    (h : ∀ x, l.head? = some x → p x = false) : l.dropWhile p = l := by
  cases l with
  | nil => rfl
  | cons a as =>
    rw [List.dropWhile_cons, if_neg (by simp [h a rfl])]

/-- Both ends of a character list are free of the predicate. -/
def trimmedEnds (l : List Char) : Prop :=
  (∀ x, l.head? = some x → wsChar x = false) ∧
  (∀ x, l.getLast? = some x → wsChar x = false)

/-- The result of `strTrim` has whitespace-free ends. -/
theorem trimmedEnds_strTrim (s : String) : trimmedEnds (strTrim s).data := by
  constructor
  · intro x hx
    have hx' : ((s.data.dropWhile wsChar).reverse.dropWhile wsChar).getLast? = some x := by
      rw [← List.head?_reverse]
      exact hx
    have hne : (s.data.dropWhile wsChar).reverse.dropWhile wsChar ≠ [] := by
      intro hnil
      rw [hnil] at hx'
      simp at hx'
    obtain ⟨t, ht⟩ :=
      (List.dropWhile_suffix wsChar :
        List.IsSuffix ((s.data.dropWhile wsChar).reverse.dropWhile wsChar)
          (s.data.dropWhile wsChar).reverse)
    have : (s.data.dropWhile wsChar).reverse.getLast? = some x := by
      rw [← ht, List.getLast?_append_of_ne_nil t hne]
      exact hx'
    rw [List.getLast?_reverse] at this
    exact head?_dropWhile_not wsChar s.data x this
  · intro x hx
    have hx' : ((s.data.dropWhile wsChar).reverse.dropWhile wsChar).head? = some x := by
      rw [← List.getLast?_reverse]
      exact hx
    exact head?_dropWhile_not wsChar (s.data.dropWhile wsChar).reverse x hx'
/-- `strTrim` fixes strings with whitespace-free ends. -/
theorem strTrim_of_trimmedEnds (s : String) (h : trimmedEnds s.data) : strTrim s = s := by
  have h1 : s.data.dropWhile wsChar = s.data := dropWhile_eq_self_of_head _ _ h.1
  have h2 : s.data.reverse.dropWhile wsChar = s.data.reverse :=
    dropWhile_eq_self_of_head _ _ (fun x hx => h.2 x (by rwa [List.head?_reverse] at hx))
  show String.mk (((s.data.dropWhile wsChar).reverse.dropWhile wsChar).reverse) = s
  rw [h1, h2, List.reverse_reverse]

/-- `strTrim` is idempotent (as `String.prototype.trim` is). -/
theorem strTrim_idem (s : String) : strTrim (strTrim s) = strTrim s :=
  strTrim_of_trimmedEnds _ (trimmedEnds_strTrim s)

/-- Membership in `insertSet`. -/
theorem mem_insertSet {x y : String} {l : List String} (h : y ∈ insertSet x l) :
    y ∈ l ∨ y = x := by
  unfold insertSet at h
  split at h
  · exact Or.inl h
  · rcases List.mem_append.mp h with h' | h'
    · exact Or.inl h'
    · exact Or.inr (List.mem_singleton.mp h')

/-- `insertSet` preserves `Nodup`. -/
theorem nodup_insertSet {x : String} {l : List String} (h : l.Nodup) :
    (insertSet x l).Nodup := by
  unfold insertSet
  split
  · exact h
  · next hc =>
    rw [List.nodup_append]
    refine ⟨h, List.nodup_singleton x, ?_⟩
    intro a ha hb
    rw [List.mem_singleton.mp hb] at ha
    exact hc (List.elem_iff.mpr ha)

/-- `canonicalIds` over one more request. -/
theorem canonicalIds_append (l : List String) (r : String) :
    canonicalIds (l ++ [r]) =
      (if strIsEmpty (strTrim r) then canonicalIds l
       else insertSet (strTrim r) (canonicalIds l)) := by
  unfold canonicalIds
  rw [List.foldl_append]
  rfl

/-- Bumping the epoch empties the current-connection sub list. -/
theorem epochRooms_bump (s : Session) (hle : ∀ e ∈ s.subLog, e.1 ≤ s.epoch) :
    s.subLog.filter (fun e => e.1 == s.epoch + 1) = [] := by
  rw [List.filter_eq_nil_iff]
  intro e he
  have := hle e he
  simp only [beq_iff_eq]
  omega

/-- The invariant maintained by every protocol-valid step of the realtime
session. -/
structure SessionInv (s : Session) : Prop where
  desired_canonical : s.desired = canonicalIds s.requested
  desired_nodup : s.desired.Nodup
  desired_wf : ∀ r ∈ s.desired, strTrim r = r ∧ strIsEmpty r = false
  live_subs : s.isConnected = true → s.wsOpen = true →
    s.active.map Prod.fst = s.desired ∧ epochRooms s = s.desired
  pre_subs : s.wsOpen = true → s.isConnected = false → epochRooms s = []
  subLog_epoch : ∀ e ∈ s.subLog, e.1 ≤ s.epoch
  subLog_id : ∀ e ∈ s.subLog, e.2.1 ≤ s.messageId
  ws_sched : s.wsOpen = true → s.reconnectScheduled = none
  ws_reconn : s.wsOpen = true → s.shouldReconnect = true
  sched_reconn : s.reconnectScheduled.isSome = true → s.shouldReconnect = true
  delay_lb : 5000 ≤ s.reconnectDelayMs
  delay_ub : s.reconnectDelayMs ≤ 60000
  delayLog_wf : ∀ d ∈ s.delayLog, 5000 ≤ d ∧ d ≤ 60000
  calls_partition : ∀ i ∈ s.begunCalls,
    i ∈ s.pendingCalls ∨ i ∈ s.resolvedCalls ∨ i ∈ s.rejectedCalls

/-- The initial state satisfies the invariant. -/
theorem sessionInv_init : SessionInv initSession := by
  constructor <;> simp [initSession, canonicalIds, epochRooms]

/-- `epochRooms` ignores everything but `subLog` and `epoch`. -/
theorem epochRooms_congr (s s' : Session) (h1 : s'.subLog = s.subLog)
    (h2 : s'.epoch = s.epoch) : epochRooms s' = epochRooms s := by
  unfold epochRooms
  rw [h1, h2]

/-- `insertSet` of a genuinely new element is an append. -/
theorem insertSet_of_not_mem {x : String} {l : List String} (h : x ∉ l) :
    insertSet x l = l ++ [x] := by
  unfold insertSet
  rw [if_neg (fun hc => h (List.elem_iff.mp hc))]

/-- Invariant preservation: `subscribeToRoom`. -/
theorem sessionInv_subscribe (s : Session) (r : String) (hinv : SessionInv s) :
    SessionInv (step s (.subscribe r)) := by
  show SessionInv (subscribeImpl r { s with requested := s.requested ++ [r] })
  unfold subscribeImpl
  dsimp only
  by_cases hemp : strIsEmpty (strTrim r) = true
  · rw [if_pos hemp]
    exact ⟨by
        show s.desired = canonicalIds (s.requested ++ [r])
        rw [canonicalIds_append, if_pos hemp]
        exact hinv.desired_canonical,
      hinv.desired_nodup, hinv.desired_wf, hinv.live_subs, hinv.pre_subs,
      hinv.subLog_epoch, hinv.subLog_id, hinv.ws_sched, hinv.ws_reconn, hinv.sched_reconn,
      hinv.delay_lb, hinv.delay_ub, hinv.delayLog_wf, hinv.calls_partition⟩
  · rw [if_neg hemp]
    have hcanon : insertSet (strTrim r) s.desired = canonicalIds (s.requested ++ [r]) := by
      rw [canonicalIds_append, if_neg hemp, hinv.desired_canonical]
    have hwf : ∀ x ∈ insertSet (strTrim r) s.desired,
        strTrim x = x ∧ strIsEmpty x = false := by
      intro x hx
      rcases mem_insertSet hx with hx' | rfl
      · exact hinv.desired_wf x hx'
      · exact ⟨strTrim_idem r, by simpa using hemp⟩
    by_cases hlive : (s.isConnected && s.wsOpen) = true
    · rw [if_neg (by simp [hlive])]
      obtain ⟨hconn, hws⟩ := Bool.and_eq_true_iff.mp hlive
      obtain ⟨hact, hrooms⟩ := hinv.live_subs hconn hws
      by_cases hactive : s.active.any (fun p => p.1 == strTrim r) = true
      · rw [if_pos hactive]
        have hmem : strTrim r ∈ s.desired := by
          rw [← hact]
          simp only [List.any_eq_true] at hactive
          obtain ⟨p, hp, hpt⟩ := hactive
          rw [← beq_iff_eq.mp hpt]
          exact List.mem_map_of_mem Prod.fst hp
        have hins : insertSet (strTrim r) s.desired = s.desired := insertSet_of_mem hmem
        refine ⟨hcanon, by rw [hins]; exact hinv.desired_nodup, hwf, ?_, ?_,
          hinv.subLog_epoch, hinv.subLog_id, hinv.ws_sched, hinv.ws_reconn,
          hinv.sched_reconn, hinv.delay_lb, hinv.delay_ub, hinv.delayLog_wf,
          hinv.calls_partition⟩
        · intro _ _
          rw [hins]
          exact ⟨hact, hrooms⟩
        · intro _ hconn'
          rw [show s.isConnected = false from hconn'] at hconn
          exact absurd hconn (by simp)
      · rw [if_neg hactive]
        have hnotmem : strTrim r ∉ s.desired := by
          rw [← hact]
          intro hmem
          obtain ⟨p, hp, hpt⟩ := List.mem_map.mp hmem
          simp only [List.any_eq_true, not_exists] at hactive
          exact hactive p ⟨hp, by simp [hpt]⟩
        have hins : insertSet (strTrim r) s.desired = s.desired ++ [strTrim r] :=
          insertSet_of_not_mem hnotmem
        have hnodup' : (insertSet (strTrim r) s.desired).Nodup :=
          nodup_insertSet hinv.desired_nodup
        refine ⟨hcanon, hnodup', hwf, ?_, ?_, ?_, ?_, hinv.ws_sched, hinv.ws_reconn,
          hinv.sched_reconn, hinv.delay_lb, hinv.delay_ub, hinv.delayLog_wf,
          hinv.calls_partition⟩
        · intro _ _
          constructor
          · show (s.active ++ [(strTrim r, s.messageId + 1)]).map Prod.fst =
              insertSet (strTrim r) s.desired
            rw [hins, List.map_append, hact]
            rfl
          · show ((s.subLog ++ [(s.epoch, s.messageId + 1, strTrim r)]).filter
              (fun e => e.1 == s.epoch)).map (fun e => e.2.2) =
              insertSet (strTrim r) s.desired
            rw [List.filter_append, hins]
            have hf : List.filter (fun e => e.1 == s.epoch)
                [((s.epoch, s.messageId + 1, strTrim r) : Nat × Nat × String)] =
                [(s.epoch, s.messageId + 1, strTrim r)] := by simp
            rw [hf, List.map_append]
            have hr : epochRooms s = s.desired := hrooms
            unfold epochRooms at hr
            rw [hr]
            rfl
        · intro _ hconn'
          rw [show s.isConnected = false from hconn'] at hconn
          exact absurd hconn (by simp)
        · intro e he
          rcases List.mem_append.mp he with he' | he'
          · exact hinv.subLog_epoch e he'
          · rw [List.mem_singleton.mp he']
        · intro e he
          rcases List.mem_append.mp he with he' | he'
          · exact Nat.le_trans (hinv.subLog_id e he') (Nat.le_succ _)
          · rw [List.mem_singleton.mp he']
    · have hlf : (s.isConnected && s.wsOpen) = false := by
        cases h : (s.isConnected && s.wsOpen) with
        | true => exact absurd h hlive
        | false => rfl
      rw [if_pos (by rw [hlf]; rfl)]
      refine ⟨hcanon, nodup_insertSet hinv.desired_nodup, hwf, ?_, ?_, hinv.subLog_epoch,
        hinv.subLog_id, hinv.ws_sched, hinv.ws_reconn, hinv.sched_reconn, hinv.delay_lb,
        hinv.delay_ub, hinv.delayLog_wf, hinv.calls_partition⟩
      · intro hconn hws
        rw [show s.isConnected = true from hconn, show s.wsOpen = true from hws] at hlive
        exact absurd rfl hlive
      · intro hws hconn
        exact hinv.pre_subs hws hconn

/-- Invariant preservation: `connect()` opening a socket. -/
theorem sessionInv_connectStart (s : Session) (hinv : SessionInv s)
    (hsched : s.reconnectScheduled = none) (hsr : s.shouldReconnect = true) :
    SessionInv (connectStartStep s) := by
  unfold connectStartStep
  refine ⟨hinv.desired_canonical, hinv.desired_nodup, hinv.desired_wf, ?_, ?_, ?_,
    hinv.subLog_id, fun _ => hsched, fun _ => hsr, fun _ => hsr, hinv.delay_lb,
    hinv.delay_ub, hinv.delayLog_wf, hinv.calls_partition⟩
  · intro hconn _
    exact absurd hconn (by simp)
  · intro _ _
    show (List.filter (fun e => e.1 == s.epoch + 1) s.subLog).map (fun e => e.2.2) = []
    rw [epochRooms_bump s hinv.subLog_epoch]
    rfl
  · intro e he
    exact Nat.le_trans (hinv.subLog_epoch e he) (Nat.le_succ _)

/-- Invariant preservation: the `connected` frame plus successful login. -/
theorem sessionInv_connected (s : Session) (hinv : SessionInv s)
    (hws : s.wsOpen = true) (hnc : s.isConnected = false) :
    SessionInv (connectedStep s) := by
  unfold connectedStep
  dsimp only
  have hpre : epochRooms s = [] := hinv.pre_subs hws hnc
  obtain ⟨h1, h2, h3, h4, h5, h6, h7, h8, h9, h10, h11, h12, h13, h14, h15, hacts, news,
      hsub, hmap, hfresh⟩ :=
    foldSub_spec s.desired
      { s with
          messageId := s.messageId + 1
          begunCalls := s.begunCalls ++ [s.messageId + 1]
          resolvedCalls := s.resolvedCalls ++ [s.messageId + 1]
          isConnected := true
          reconnectDelayMs := 5000
          active := [] }
      rfl hws hinv.desired_wf hinv.desired_nodup (by intro x hx p hp; simp at hp)
      (fun x hx => hx)
  set sf := s.desired.foldl (fun acc r => subscribeImpl r acc)
      { s with
          messageId := s.messageId + 1
          begunCalls := s.begunCalls ++ [s.messageId + 1]
          resolvedCalls := s.resolvedCalls ++ [s.messageId + 1]
          isConnected := true
          reconnectDelayMs := 5000
          active := [] } with hsf
  have hrooms : epochRooms sf = s.desired := by
    unfold epochRooms
    rw [hsub, h3]
    dsimp only
    rw [List.filter_append]
    have hold : List.filter (fun e => e.1 == s.epoch) s.subLog = [] := by
      unfold epochRooms at hpre
      rw [List.map_eq_nil_iff] at hpre
      exact hpre
    rw [hold]
    have hnew : List.filter (fun e => e.1 == s.epoch) news = news := by
      rw [List.filter_eq_self]
      intro e he
      rw [(hfresh e he).1]
      exact beq_self_eq_true _
    rw [hnew, List.nil_append, hmap]
  refine ⟨by rw [h1, h2]; exact hinv.desired_canonical,
    by rw [h1]; exact hinv.desired_nodup,
    by rw [h1]; exact hinv.desired_wf, ?_, ?_, ?_, ?_, ?_, ?_, ?_, ?_, ?_, ?_, ?_⟩
  · intro _ _
    constructor
    · rw [h15, h1]
      rfl
    · rw [h1]
      exact hrooms
  · intro _ hconn
    rw [h4] at hconn
    exact absurd hconn (by simp)
  · intro e he
    rw [hsub] at he
    rcases List.mem_append.mp he with he' | he'
    · rw [h3]
      exact hinv.subLog_epoch e he'
    · rw [h3]
      exact Nat.le_of_eq (hfresh e he').1
  · intro e he
    rw [hsub] at he
    rcases List.mem_append.mp he with he' | he'
    · exact Nat.le_trans (hinv.subLog_id e he')
        (Nat.le_trans (Nat.le_succ _) h14)
    · exact (hfresh e he').2.2
  · intro _
    rw [h7]
    exact hinv.ws_sched hws
  · intro _
    rw [h8]
    exact hinv.ws_reconn hws
  · intro hsome
    rw [h7] at hsome
    rw [h8]
    exact hinv.sched_reconn hsome
  · rw [h6]
  · rw [h6]
    show (5000 : Nat) ≤ 60000
    exact Nat.le_of_sub_eq_zero rfl
  · rw [h13]
    exact hinv.delayLog_wf
  · intro i hi
    rw [h12, h9, h10, h11] at *
    rcases List.mem_append.mp hi with hi' | hi'
    · rcases hinv.calls_partition i hi' with h | h | h
      · exact Or.inl h
      · exact Or.inr (Or.inl (List.mem_append.mpr (Or.inl h)))
      · exact Or.inr (Or.inr h)
    · exact Or.inr (Or.inl (List.mem_append.mpr (Or.inr hi')))

/-- Invariant preservation: socket `close`. -/
theorem sessionInv_close (s : Session) (hinv : SessionInv s) (hws : s.wsOpen = true) :
    SessionInv (closeStep s) := by
  unfold closeStep
  dsimp only
  rw [if_pos (hinv.ws_reconn hws)]
  unfold scheduleReconnectStep
  rw [show ({ s with
      isConnected := false
      wsOpen := false
      rejectedCalls := s.rejectedCalls ++ s.pendingCalls
      pendingCalls := [] } : Session).reconnectScheduled = s.reconnectScheduled from rfl,
    hinv.ws_sched hws]
  dsimp only
  have hub := hinv.delay_ub
  have hlb := hinv.delay_lb
  refine ⟨hinv.desired_canonical, hinv.desired_nodup, hinv.desired_wf, ?_, ?_,
    hinv.subLog_epoch, hinv.subLog_id, ?_, ?_, ?_, ?_, ?_, ?_, ?_⟩
  · intro hconn _
    exact absurd hconn (by simp)
  · intro hws' _
    exact absurd hws' (by simp)
  · intro hws'
    exact absurd hws' (by simp)
  · intro hws'
    exact absurd hws' (by simp)
  · intro _
    exact hinv.ws_reconn hws
  · show 5000 ≤ min (s.reconnectDelayMs * 2) 60000
    omega
  · show min (s.reconnectDelayMs * 2) 60000 ≤ 60000
    omega
  · intro d hd
    rcases List.mem_append.mp hd with hd' | hd'
    · exact hinv.delayLog_wf d hd'
    · rw [List.mem_singleton.mp hd']
      constructor
      · show 5000 ≤ min s.reconnectDelayMs 60000
        omega
      · show min s.reconnectDelayMs 60000 ≤ 60000
        omega
  · intro i hi
    rcases hinv.calls_partition i hi with h | h | h
    · exact Or.inr (Or.inr (List.mem_append.mpr (Or.inr h)))
    · exact Or.inr (Or.inl h)
    · exact Or.inr (Or.inr (List.mem_append.mpr (Or.inl h)))

/-- Invariant preservation: `callMethod`. -/
theorem sessionInv_callBegin (s : Session) (hinv : SessionInv s) :
    SessionInv (callBeginStep s) := by
  unfold callBeginStep
  dsimp only
  refine ⟨hinv.desired_canonical, hinv.desired_nodup, hinv.desired_wf, ?_, ?_,
    hinv.subLog_epoch, ?_, hinv.ws_sched, hinv.ws_reconn, hinv.sched_reconn,
    hinv.delay_lb, hinv.delay_ub, hinv.delayLog_wf, ?_⟩
  · intro hconn hws
    exact hinv.live_subs hconn hws
  · intro hws hconn
    exact hinv.pre_subs hws hconn
  · intro e he
    exact Nat.le_trans (hinv.subLog_id e he) (Nat.le_succ _)
  · intro i hi
    rcases List.mem_append.mp hi with hi' | hi'
    · rcases hinv.calls_partition i hi' with h | h | h
      · exact Or.inl (List.mem_append.mpr (Or.inl h))
      · exact Or.inr (Or.inl h)
      · exact Or.inr (Or.inr h)
    · exact Or.inl (List.mem_append.mpr (Or.inr hi'))

/-- Invariant preservation: an RPC `result` frame. -/
theorem sessionInv_callResult (s : Session) (i : Nat) (ok : Bool) (hinv : SessionInv s) :
    SessionInv (callResultStep i ok s) := by
  unfold callResultStep
  by_cases hc : s.pendingCalls.contains i = true
  · rw [if_pos hc]
    cases ok with
    | true =>
      rw [if_pos rfl]
      refine ⟨hinv.desired_canonical, hinv.desired_nodup, hinv.desired_wf,
        hinv.live_subs, hinv.pre_subs, hinv.subLog_epoch, hinv.subLog_id, hinv.ws_sched,
        hinv.ws_reconn, hinv.sched_reconn, hinv.delay_lb, hinv.delay_ub,
        hinv.delayLog_wf, ?_⟩
      intro j hj
      rcases hinv.calls_partition j hj with h | h | h
      · by_cases hji : j = i
        · subst hji
          exact Or.inr (Or.inl (List.mem_append.mpr (Or.inr (List.mem_singleton.mpr rfl))))
        · exact Or.inl (List.mem_filter.mpr ⟨h, by simpa using hji⟩)
      · exact Or.inr (Or.inl (List.mem_append.mpr (Or.inl h)))
      · exact Or.inr (Or.inr h)
    | false =>
      rw [if_neg (by simp)]
      refine ⟨hinv.desired_canonical, hinv.desired_nodup, hinv.desired_wf,
        hinv.live_subs, hinv.pre_subs, hinv.subLog_epoch, hinv.subLog_id, hinv.ws_sched,
        hinv.ws_reconn, hinv.sched_reconn, hinv.delay_lb, hinv.delay_ub,
        hinv.delayLog_wf, ?_⟩
      intro j hj
      rcases hinv.calls_partition j hj with h | h | h
      · by_cases hji : j = i
        · subst hji
          exact Or.inr (Or.inr (List.mem_append.mpr (Or.inr (List.mem_singleton.mpr rfl))))
        · exact Or.inl (List.mem_filter.mpr ⟨h, by simpa using hji⟩)
      · exact Or.inr (Or.inl h)
      · exact Or.inr (Or.inr (List.mem_append.mpr (Or.inl h)))
  · rw [if_neg hc]
    exact hinv

/-- Invariant preservation: `disconnect()`. -/
theorem sessionInv_disconnect (s : Session) (hinv : SessionInv s) :
    SessionInv (disconnectStep s) := by
  unfold disconnectStep
  refine ⟨hinv.desired_canonical, hinv.desired_nodup, hinv.desired_wf, ?_, ?_,
    hinv.subLog_epoch, hinv.subLog_id, ?_, ?_, ?_, hinv.delay_lb, hinv.delay_ub,
    hinv.delayLog_wf, ?_⟩
  · intro hconn _
    exact absurd hconn (by simp)
  · intro hws _
    exact absurd hws (by simp)
  · intro hws
    exact absurd hws (by simp)
  · intro hws
    exact absurd hws (by simp)
  · intro hsome
    exact absurd hsome (by simp)
  · intro i hi
    rcases hinv.calls_partition i hi with h | h | h
    · exact Or.inr (Or.inr (List.mem_append.mpr (Or.inr h)))
    · exact Or.inr (Or.inl h)
    · exact Or.inr (Or.inr (List.mem_append.mpr (Or.inl h)))

/-- Invariant preservation: the reconnect timer firing. -/
theorem sessionInv_reconnectFire (s : Session) (hinv : SessionInv s)
    (hsome : s.reconnectScheduled.isSome = true) :
    SessionInv (reconnectFireStep s) := by
  unfold reconnectFireStep
  exact sessionInv_connectStart { s with reconnectScheduled := none }
    ⟨hinv.desired_canonical, hinv.desired_nodup, hinv.desired_wf, hinv.live_subs,
      hinv.pre_subs, hinv.subLog_epoch, hinv.subLog_id, fun _ => rfl, hinv.ws_reconn,
      by intro h; simp at h, hinv.delay_lb, hinv.delay_ub, hinv.delayLog_wf,
      hinv.calls_partition⟩
    rfl (hinv.sched_reconn hsome)

/-- Every protocol-valid event preserves the session invariant. -/
theorem sessionInv_step (s : Session) (e : Ev) (hinv : SessionInv s)
    (hok : evOk s e = true) : SessionInv (step s e) := by
  cases e with
  | subscribe r => exact sessionInv_subscribe s r hinv
  | connStart =>
    simp only [evOk, Bool.and_eq_true, Option.isNone_iff_eq_none] at hok
    exact sessionInv_connectStart s hinv hok.1.2 hok.2
  | connected =>
    simp only [evOk, Bool.and_eq_true, Bool.not_eq_true'] at hok
    exact sessionInv_connected s hinv hok.1 hok.2
  | close =>
    simp only [evOk] at hok
    exact sessionInv_close s hinv hok
  | callBegin => exact sessionInv_callBegin s hinv
  | callResult i ok => exact sessionInv_callResult s i ok hinv
  | reconnectFire =>
    simp only [evOk, Bool.and_eq_true] at hok
    exact sessionInv_reconnectFire s hinv hok.1
  | disconnect => exact sessionInv_disconnect s hinv

/-- The invariant holds after any protocol-valid trace from a state satisfying
it. -/
theorem sessionInv_runFrom (es : List Ev) : ∀ (s : Session), SessionInv s →
    validFrom s es = true → SessionInv (runFrom s es) := by
  induction es with
  | nil => intro s hinv _; exact hinv
  | cons e es ih =>
    intro s hinv hval
    simp only [validFrom, Bool.and_eq_true] at hval
    exact ih (step s e) (sessionInv_step s e hinv hval.1) hval.2

/-- The invariant holds after any valid trace from the initial state. -/
theorem sessionInv_runTrace (es : List Ev) (hval : validTrace es = true) :
    SessionInv (runTrace es) :=
  sessionInv_runFrom es initSession sessionInv_init hval

/-- Splitting a valid trace at any point: the prefix is valid and the suffix
is valid from the reached state. -/
theorem validFrom_append (es₁ es₂ : List Ev) : ∀ s : Session,
    validFrom s (es₁ ++ es₂) = (validFrom s es₁ && validFrom (runFrom s es₁) es₂) := by
  induction es₁ with
  | nil =>
    intro s
    show validFrom s es₂ = (true && validFrom s es₂)
    rw [Bool.true_and]
  | cons e es ih =>
    intro s
    show (evOk s e && validFrom (step s e) (es ++ es₂)) = _
    rw [ih (step s e), ← Bool.and_assoc]
    rfl

/-- Validity of a trace extended by one event. -/
theorem validTrace_snoc (es : List Ev) (e : Ev) :
    validTrace (es ++ [e]) = (validTrace es && evOk (runTrace es) e) := by
  show validFrom initSession (es ++ [e]) = _
  rw [validFrom_append es [e] initSession]
  show (validFrom initSession es && (evOk (runFrom initSession es) e && true)) = _
  rw [Bool.and_true]
  rfl

/-- Running a trace extended by one event. -/
theorem runTrace_snoc (es : List Ev) (e : Ev) :
    runTrace (es ++ [e]) = step (runTrace es) e := by
  show (es ++ [e]).foldl step initSession = _
  rw [List.foldl_append]
  rfl

/-- Counting the `sub` requests of one room on one epoch equals counting the
room in that epoch's room list. -/
theorem subCount_eq_count (ep : Nat) (r : String) (l : List (Nat × Nat × String)) :
    (l.filter (fun e => e.1 == ep && e.2.2 == r)).length =
      ((l.filter (fun e => e.1 == ep)).map (fun e => e.2.2)).count r := by
  induction l with
  | nil => rfl
  | cons x xs ih =>
    by_cases h1 : x.1 = ep
    · by_cases h2 : x.2.2 = r
      · simp [List.filter_cons, List.count_cons, h1, h2, ih]
      · simp [List.filter_cons, List.count_cons, h1, h2, ih]
    · simp [List.filter_cons, h1, ih]

/-- What the `connected` handler (login success + `resubscribeAll`) produces:
the delay resets, `activeSubIdsByRoom` afterwards covers exactly the desired
rooms, the current epoch's `sub` requests are exactly the desired rooms, and
every live subscription id is fresh (above every previously allocated id). -/
theorem connectedStep_spec (s : Session) (hinv : SessionInv s) (hws : s.wsOpen = true)
    (hnc : s.isConnected = false) :
    (connectedStep s).desired = s.desired ∧
    (connectedStep s).reconnectDelayMs = 5000 ∧
    (connectedStep s).active.map Prod.fst = s.desired ∧
    epochRooms (connectedStep s) = s.desired ∧
    (∀ p ∈ (connectedStep s).active, s.messageId < p.2) := by
  unfold connectedStep
  dsimp only
  have hpre : epochRooms s = [] := hinv.pre_subs hws hnc
  obtain ⟨h1, h2, h3, h4, h5, h6, h7, h8, h9, h10, h11, h12, h13, h14, h15, hacts, news,
      hsub, hmap, hfresh⟩ :=
    foldSub_spec s.desired
      { s with
          messageId := s.messageId + 1
          begunCalls := s.begunCalls ++ [s.messageId + 1]
          resolvedCalls := s.resolvedCalls ++ [s.messageId + 1]
          isConnected := true
          reconnectDelayMs := 5000
          active := [] }
      rfl hws hinv.desired_wf hinv.desired_nodup (by intro x hx p hp; simp at hp)
      (fun x hx => hx)
  set sf := s.desired.foldl (fun acc r => subscribeImpl r acc)
      { s with
          messageId := s.messageId + 1
          begunCalls := s.begunCalls ++ [s.messageId + 1]
          resolvedCalls := s.resolvedCalls ++ [s.messageId + 1]
          isConnected := true
          reconnectDelayMs := 5000
          active := [] } with hsf
  have hrooms : epochRooms sf = s.desired := by
    unfold epochRooms
    rw [hsub, h3]
    dsimp only
    rw [List.filter_append]
    have hold : List.filter (fun e => e.1 == s.epoch) s.subLog = [] := by
      unfold epochRooms at hpre
      rw [List.map_eq_nil_iff] at hpre
      exact hpre
    rw [hold]
    have hnew : List.filter (fun e => e.1 == s.epoch) news = news := by
      rw [List.filter_eq_self]
      intro e he
      rw [(hfresh e he).1]
      exact beq_self_eq_true _
    rw [hnew, List.nil_append, hmap]
  refine ⟨h1, h6, ?_, hrooms, ?_⟩
  · rw [h15]
    rfl
  · intro p hp
    rcases hacts p hp with hp' | hp'
    · simp at hp'
    · exact Nat.lt_of_le_of_lt (Nat.le_succ _) hp'

/-- What the socket-`close` handler does when a reconnect will be scheduled
(reconnection enabled, no timer already pending). -/
theorem closeStep_spec (s : Session) (hsr : s.shouldReconnect = true)
    (hsched : s.reconnectScheduled = none) :
    (closeStep s).delayLog = s.delayLog ++ [min s.reconnectDelayMs 60000] ∧
    (closeStep s).reconnectDelayMs = min (s.reconnectDelayMs * 2) 60000 := by
  unfold closeStep
  dsimp only
  rw [if_pos hsr]
  unfold scheduleReconnectStep
  rw [show ({ s with
      isConnected := false
      wsOpen := false
      rejectedCalls := s.rejectedCalls ++ s.pendingCalls
      pendingCalls := [] } : Session).reconnectScheduled = s.reconnectScheduled from rfl,
    hsched]
  exact ⟨rfl, rfl⟩

/-- The `close` handler always empties the pending-call map into the rejected
set, whatever the reconnect flags say. -/
theorem closeStep_calls (s : Session) :
    (closeStep s).pendingCalls = [] ∧
    (closeStep s).rejectedCalls = s.rejectedCalls ++ s.pendingCalls ∧
    (closeStep s).resolvedCalls = s.resolvedCalls := by
  unfold closeStep
  dsimp only
  by_cases h : s.shouldReconnect = true
  · rw [if_pos h]
    unfold scheduleReconnectStep
    rw [show ({ s with
        isConnected := false
        wsOpen := false
        rejectedCalls := s.rejectedCalls ++ s.pendingCalls
        pendingCalls := [] } : Session).reconnectScheduled = s.reconnectScheduled from rfl]
    cases hsched : s.reconnectScheduled with
    | none => exact ⟨rfl, rfl, rfl⟩
    | some d => exact ⟨rfl, rfl, rfl⟩
  · rw [if_neg h]
    exact ⟨rfl, rfl, rfl⟩

/-- C2 (amended): on every protocol-valid trace, while the session is live
exactly one `sub` request has been sent on the current connection per room in
`DesiredSubscriptions` (and none for any other room id — so a repeated
`subscribeToRoom` for a room already active sends nothing), and
`DesiredSubscriptions` equals the canonical form (trimmed, blanks dropped,
first occurrence kept) of the ids ever passed to `subscribeToRoom` — not the
raw set of passed ids. -/
theorem C2_one_sub_per_desired_room (es : List Ev) (hval : validTrace es = true) :
    ((runTrace es).isConnected = true → (runTrace es).wsOpen = true →
      ∀ r : String,
        ((runTrace es).subLog.filter
          (fun e => e.1 == (runTrace es).epoch && e.2.2 == r)).length =
        (if r ∈ (runTrace es).desired then 1 else 0)) ∧
    (runTrace es).desired = canonicalIds (runTrace es).requested := by
  have hinv := sessionInv_runTrace es hval
  refine ⟨?_, hinv.desired_canonical⟩
  intro hconn hws r
  obtain ⟨-, hrooms⟩ := hinv.live_subs hconn hws
  rw [subCount_eq_count (runTrace es).epoch r (runTrace es).subLog]
  have hrooms' : ((runTrace es).subLog.filter
      (fun e => e.1 == (runTrace es).epoch)).map (fun e => e.2.2) =
      (runTrace es).desired := hrooms
  rw [hrooms']
  by_cases hr : r ∈ (runTrace es).desired
  · rw [if_pos hr, List.count_eq_one_of_mem hinv.desired_nodup hr]
  · rw [if_neg hr, List.count_eq_zero_of_not_mem hr]

/-- C2 counterexample: `subscribeToRoom(" a ")` records the trimmed id `"a"`,
so `DesiredSubscriptions` is not the set of ids as passed. -/
theorem C2_counterexample :
    validTrace [Ev.subscribe " a "] = true ∧
    (" a " : String) ∈ (runTrace [Ev.subscribe " a "]).requested ∧
    (" a " : String) ∉ (runTrace [Ev.subscribe " a "]).desired ∧
    (runTrace [Ev.subscribe " a "]).desired = ["a"] := by
  refine ⟨by decide, by decide, by decide, by decide⟩

/-- Concrete trace for the C2 witness: connect, go live, subscribe to `A`
twice and `B` once. -/
def wTraceC2 : List Ev :=
  [Ev.connStart, Ev.connected, Ev.subscribe "A", Ev.subscribe "A", Ev.subscribe "B"]

/-- C2 witness: on the concrete trace the live session has sent exactly one
`sub` for room `A` despite two `subscribeToRoom("A")` calls. -/
theorem C2_witness :
    ((runTrace wTraceC2).subLog.filter
      (fun e => e.1 == (runTrace wTraceC2).epoch && e.2.2 == "A")).length =
      (if "A" ∈ (runTrace wTraceC2).desired then 1 else 0) ∧
    (runTrace wTraceC2).desired = canonicalIds (runTrace wTraceC2).requested := by
  have h := C2_one_sub_per_desired_room wTraceC2 (by decide)
  exact ⟨h.1 (by decide) (by decide) "A", h.2⟩

/-- C3: on every protocol-valid trace whose next event is a successful
(re)authentication (`connected` frame + login), the new state's live
subscriptions cover exactly `DesiredSubscriptions` (the cleared
`ActiveSubscriptionIds` map is rebuilt from scratch), the `sub` requests of
the current connection are exactly the desired rooms, and every live
subscription id is fresh — it differs from every subscription id ever sent
before, so no stale handle leaks across reconnects. -/
theorem C3_resubscribe_fresh (es : List Ev)
    (hval : validTrace (es ++ [Ev.connected]) = true) :
    (runTrace (es ++ [Ev.connected])).active.map Prod.fst = (runTrace es).desired ∧
    epochRooms (runTrace (es ++ [Ev.connected])) = (runTrace es).desired ∧
    ∀ p ∈ (runTrace (es ++ [Ev.connected])).active, ∀ t ∈ (runTrace es).subLog,
      p.2 ≠ t.2.1 := by
  have hsplit : (validTrace es && evOk (runTrace es) Ev.connected) = true := by
    rw [← validTrace_snoc]
    exact hval
  obtain ⟨hves, hok⟩ := Bool.and_eq_true_iff.mp hsplit
  have hinv := sessionInv_runTrace es hves
  have hok' : ((runTrace es).wsOpen && !(runTrace es).isConnected) = true := hok
  obtain ⟨hws, hnc⟩ := Bool.and_eq_true_iff.mp hok'
  have hnc' : (runTrace es).isConnected = false := by simpa using hnc
  obtain ⟨-, -, hact, hrooms, hfresh⟩ := connectedStep_spec (runTrace es) hinv hws hnc'
  rw [runTrace_snoc]
  refine ⟨hact, hrooms, ?_⟩
  intro p hp t ht hEq
  have h1 := hfresh p hp
  have h2 := hinv.subLog_id t ht
  omega

/-- Concrete trace for the C3 witness: go live with desired rooms `A`, `B`,
drop the socket, let the backoff timer reconnect, and authenticate again. -/
def wTraceC3 : List Ev :=
  [Ev.connStart, Ev.subscribe "A", Ev.subscribe "B", Ev.connected, Ev.close,
   Ev.reconnectFire]

/-- C3 witness: after the reconnect of the concrete trace the session holds
fresh live subscriptions for exactly `A` and `B`, and no new subscription id
collides with a pre-disconnect one. -/
theorem C3_witness :
    (runTrace (wTraceC3 ++ [Ev.connected])).active.map Prod.fst =
      (runTrace wTraceC3).desired ∧
    (runTrace wTraceC3).desired = ["A", "B"] ∧
    ∀ p ∈ (runTrace (wTraceC3 ++ [Ev.connected])).active,
      ∀ t ∈ (runTrace wTraceC3).subLog, p.2 ≠ t.2.1 := by
  have h := C3_resubscribe_fresh wTraceC3 (by decide)
  exact ⟨h.1, by decide, h.2.2⟩

/-- C4: on every protocol-valid trace the reconnect delay stays within
[5000 ms, 60000 ms] (as does every delay ever scheduled); a socket close in a
state where the handler schedules a reconnect logs exactly the current delay,
doubles it up to the 60000 ms ceiling, and never decreases it; and a
successful login resets the delay to the 5000 ms base. -/
theorem C4_reconnect_backoff (es : List Ev) (hval : validTrace es = true) :
    (5000 ≤ (runTrace es).reconnectDelayMs ∧ (runTrace es).reconnectDelayMs ≤ 60000) ∧
    (∀ d ∈ (runTrace es).delayLog, 5000 ≤ d ∧ d ≤ 60000) ∧
    (evOk (runTrace es) Ev.close = true →
      (runTrace (es ++ [Ev.close])).delayLog =
        (runTrace es).delayLog ++ [(runTrace es).reconnectDelayMs] ∧
      (runTrace (es ++ [Ev.close])).reconnectDelayMs =
        min ((runTrace es).reconnectDelayMs * 2) 60000 ∧
      (runTrace es).reconnectDelayMs ≤ (runTrace (es ++ [Ev.close])).reconnectDelayMs) ∧
    (evOk (runTrace es) Ev.connected = true →
      (runTrace (es ++ [Ev.connected])).reconnectDelayMs = 5000) := by
  have hinv := sessionInv_runTrace es hval
  refine ⟨⟨hinv.delay_lb, hinv.delay_ub⟩, hinv.delayLog_wf, ?_, ?_⟩
  · intro hok
    have hws : (runTrace es).wsOpen = true := hok
    obtain ⟨hdl, hdm⟩ :=
      closeStep_spec (runTrace es) (hinv.ws_reconn hws) (hinv.ws_sched hws)
    rw [runTrace_snoc, show step (runTrace es) Ev.close = closeStep (runTrace es) from rfl]
    refine ⟨?_, hdm, ?_⟩
    · rw [hdl, Nat.min_eq_left hinv.delay_ub]
    · rw [hdm]
      have hub := hinv.delay_ub
      omega
  · intro hok
    have hok' : ((runTrace es).wsOpen && !(runTrace es).isConnected) = true := hok
    obtain ⟨hws, hnc⟩ := Bool.and_eq_true_iff.mp hok'
    have hnc' : (runTrace es).isConnected = false := by simpa using hnc
    obtain ⟨-, hdel, -, -, -⟩ := connectedStep_spec (runTrace es) hinv hws hnc'
    rw [runTrace_snoc]
    exact hdel

/-- Concrete trace for the C4 witness: connect and drop twice without ever
logging in, then reconnect and log in. -/
def wTraceC4 : List Ev :=
  [Ev.connStart, Ev.close, Ev.reconnectFire, Ev.close, Ev.reconnectFire]

/-- C4 witness: on the concrete trace the two failed attempts schedule 5000
then 10000 (doubling), the delay sits at 20000, and the successful login
resets it to 5000. -/
theorem C4_witness :
    (runTrace wTraceC4).delayLog = [5000, 10000] ∧
    (runTrace wTraceC4).reconnectDelayMs = 20000 ∧
    (runTrace (wTraceC4 ++ [Ev.connected])).reconnectDelayMs = 5000 := by
  have h := (C4_reconnect_backoff wTraceC4 (by decide)).2.2.2 (by decide)
  exact ⟨by decide, by decide, h⟩

/-- C5: on every protocol-valid trace each `callMethod` promise ever begun is
pending, resolved or rejected; a socket `close` (and likewise `disconnect()`)
empties the pending-call map, rejecting every outstanding call en masse, so
afterwards every call ever begun is settled (resolved or rejected) — none
hangs. -/
theorem C5_pending_rejected_on_drop (es : List Ev) (hval : validTrace es = true) :
    (∀ i ∈ (runTrace es).begunCalls,
      i ∈ (runTrace es).pendingCalls ∨ i ∈ (runTrace es).resolvedCalls ∨
      i ∈ (runTrace es).rejectedCalls) ∧
    ((runTrace (es ++ [Ev.close])).pendingCalls = [] ∧
      (runTrace (es ++ [Ev.close])).rejectedCalls =
        (runTrace es).rejectedCalls ++ (runTrace es).pendingCalls ∧
      ∀ i ∈ (runTrace es).begunCalls,
        i ∈ (runTrace (es ++ [Ev.close])).resolvedCalls ∨
        i ∈ (runTrace (es ++ [Ev.close])).rejectedCalls) ∧
    ((runTrace (es ++ [Ev.disconnect])).pendingCalls = [] ∧
      (runTrace (es ++ [Ev.disconnect])).rejectedCalls =
        (runTrace es).rejectedCalls ++ (runTrace es).pendingCalls ∧
      ∀ i ∈ (runTrace es).begunCalls,
        i ∈ (runTrace (es ++ [Ev.disconnect])).resolvedCalls ∨
        i ∈ (runTrace (es ++ [Ev.disconnect])).rejectedCalls) := by
  have hinv := sessionInv_runTrace es hval
  obtain ⟨hp, hr, hres⟩ := closeStep_calls (runTrace es)
  refine ⟨hinv.calls_partition, ?_, ?_⟩
  · rw [runTrace_snoc, show step (runTrace es) Ev.close = closeStep (runTrace es) from rfl]
    refine ⟨hp, hr, ?_⟩
    intro i hi
    rw [hres, hr]
    rcases hinv.calls_partition i hi with h | h | h
    · exact Or.inr (List.mem_append.mpr (Or.inr h))
    · exact Or.inl h
    · exact Or.inr (List.mem_append.mpr (Or.inl h))
  · rw [runTrace_snoc]
    refine ⟨rfl, rfl, ?_⟩
    intro i hi
    rcases hinv.calls_partition i hi with h | h | h
    · exact Or.inr (List.mem_append.mpr (Or.inr h))
    · exact Or.inl h
    · exact Or.inr (List.mem_append.mpr (Or.inl h))

/-- Concrete trace for the C5 witness: connect, log in, start two RPC calls,
resolve the first, then lose the socket. -/
def wTraceC5 : List Ev :=
  [Ev.connStart, Ev.connected, Ev.callBegin, Ev.callBegin, Ev.callResult 2 true]

/-- C5 witness: on the concrete trace the close rejects exactly the one
outstanding call and leaves nothing pending; every begun call is settled. -/
theorem C5_witness :
    (runTrace (wTraceC5 ++ [Ev.close])).pendingCalls = [] ∧
    (runTrace (wTraceC5 ++ [Ev.close])).rejectedCalls =
      (runTrace wTraceC5).rejectedCalls ++ (runTrace wTraceC5).pendingCalls ∧
    (runTrace wTraceC5).pendingCalls = [3] ∧
    ((3 : Nat) ∈ (runTrace (wTraceC5 ++ [Ev.close])).resolvedCalls ∨
      (3 : Nat) ∈ (runTrace (wTraceC5 ++ [Ev.close])).rejectedCalls) := by
  have h := (C5_pending_rejected_on_drop wTraceC5 (by decide)).2.1
  exact ⟨h.1, h.2.1, by decide, h.2.2 3 (by decide)⟩

/-! ## Reaction-based approval decisions (`handleIncomingMessage` in
`realtime.ts`) -/

/-- `e.replace(/:/g, "")`. -/
def stripColons (s : String) : String := ⟨s.data.filter (fun c => !(c == ':'))⟩

/-- The approve-emoji list of `handleIncomingMessage`. -/
def approveEmojis : List String :=
  [":white_check_mark:", ":heavy_check_mark:", ":thumbsup:", ":+1:"]

/-- The deny-emoji list of `handleIncomingMessage`. -/
def denyEmojis : List String :=
  [":x:", ":negative_squared_cross_mark:", ":thumbsdown:", ":-1:"]

/-- `approveEmojis.some(e => normalizedEmoji.includes(e.replace(/:/g, "")))`. -/
def isApproveEmoji (emoji : String) : Bool :=
  approveEmojis.any (fun e => strHas (strLower emoji) (stripColons e))

/-- `denyEmojis.some(e => normalizedEmoji.includes(e.replace(/:/g, "")))`. -/
def isDenyEmoji (emoji : String) : Bool :=
  denyEmojis.any (fun e => strHas (strLower emoji) (stripColons e))

/-- `` `${msg._id}:${emoji}:${username}` ``, the dedup key of
`processedReactions`. -/
def reactionKey (mid emoji username : String) : String :=
  mid ++ ":" ++ emoji ++ ":" ++ username

/-- The decision target passed to `approveRequest` / `denyRequest`:
`approval.type === "dm" ? (approval.targetUsername ?? approval.targetId) :
approval.targetId`. -/
def decisionTarget (approval : PendingApproval) : String :=
  match approval.kind with
  | .dm => approval.targetUsername.getD approval.targetId
  | .room => approval.targetId

/-- `buildApprovedMessage` from `approval-commands`. -/
def buildApprovedMessage (kind : ApprovalType) : String :=
  match kind with
  | .dm => "✅ You've been approved! You can now send messages."
  | .room => "✅ This room has been approved. I'm ready to help!"

/-- `buildDeniedMessage` from `approval-commands`. -/
def buildDeniedMessage (kind : ApprovalType) : String :=
  match kind with
  | .dm => "❌ Your request was not approved."
  | .room => "❌ This room was not approved. Goodbye!"

/-- The state touched by the reaction-processing block: the approval store,
the two allow-lists, the module-level `processedReactions` set (insertion
order kept) and the outbound messages, as `(destination, text)`. -/
structure ReactionState where
  approvals : ApprovalStore
  allowDm : AllowFromStore
  allowRooms : AllowFromStore
  processed : List String
  sends : List (String × String)
deriving DecidableEq, Repr

/-- The environment of the reaction block: the remote lookups behind
`checkIsApprover`, the configured approver patterns, and the decision
instant. -/
structure RxCtx where
  userIdOf : String → Option String
  rolesOf : String → Option (List String)
  approvers : List String
  now : Int

/-- The body run for an authorized, not-yet-processed reaction: call
`approveRequest` (resp. `denyRequest`); when a record was decided, on approval
add the target to the matching allow-list, and in both cases notify the
requester's reply room. -/
def applyDecision (ctx : RxCtx) (approval : PendingApproval) (username : String)
    (isApprove : Bool) (st : ReactionState) : ReactionState :=
  if isApprove then
    match approveRequest st.approvals (decisionTarget approval) username
        (some approval.kind) ctx.now with
    | (none, store', _) => { st with approvals := store' }
    | (some _, store', _) =>
      let st := { st with approvals := store' }
      let st :=
        match approval.kind with
        | .dm => { st with allowDm := addToAllowFrom st.allowDm approval.targetId }
        | .room => { st with allowRooms := addToAllowFrom st.allowRooms approval.targetId }
      { st with sends := st.sends ++
          [("room:" ++ approval.replyRoomId, buildApprovedMessage approval.kind)] }
  else
    match denyRequest st.approvals (decisionTarget approval) username
        (some approval.kind) ctx.now with
    | (none, store', _) => { st with approvals := store' }
    | (some _, store', _) =>
      { st with
          approvals := store'
          sends := st.sends ++
            [("room:" ++ approval.replyRoomId, buildDeniedMessage approval.kind)] }

/-- The inner `for (const username of reaction.usernames)` loop.  The returned
flag is `true` when the `return` at the end of the body was reached (one
authorized reaction processed — everything after is skipped). -/
def processUsers (ctx : RxCtx) (mid emoji : String) (approval : PendingApproval)
    (isApprove : Bool) (st : ReactionState) :
    List String → ReactionState × Bool
  | [] => (st, false)
  | username :: rest =>
    if !(checkIsApprover ctx.userIdOf ctx.rolesOf username ctx.approvers) then
      processUsers ctx mid emoji approval isApprove st rest
    else if st.processed.contains (reactionKey mid emoji username) then
      processUsers ctx mid emoji approval isApprove st rest
    else
      let st := { st with processed := st.processed ++ [reactionKey mid emoji username] }
      (applyDecision ctx approval username isApprove st, true)

/-- The outer `for (const [emoji, reaction] of Object.entries(msg.reactions))`
loop. -/
def processReactions (ctx : RxCtx) (mid : String) (approval : PendingApproval)
    (st : ReactionState) : List (String × List String) → ReactionState
  | [] => st
  | (emoji, usernames) :: rest =>
    let isApp := isApproveEmoji emoji
    let isDen := isDenyEmoji emoji
    if !isApp && !isDen then processReactions ctx mid approval st rest
    else
      match processUsers ctx mid emoji approval isApp st usernames with
      | (st', true) => st'
      | (st', false) => processReactions ctx mid approval st' rest

/-- The reaction-based approval block of `handleIncomingMessage`: runs only
for a message that carries reactions, resolves it to a tracked approval
notification, and only acts while that approval is still pending. -/
def handleReactionEvent (ctx : RxCtx) (mid : String)
    (reactions : List (String × List String)) (st : ReactionState) : ReactionState :=
  if reactions.isEmpty then st
  else
    match findApprovalByMessageId st.approvals mid with
    | none => st
    | some approval =>
      if approval.status == ApprovalStatus.pending then
        processReactions ctx mid approval st reactions
      else st

/-- `applyDecision` never touches the `processedReactions` set. -/
theorem applyDecision_processed (ctx : RxCtx) (approval : PendingApproval)
    (username : String) (b : Bool) (st : ReactionState) :
    (applyDecision ctx approval username b st).processed = st.processed := by
  unfold applyDecision
  cases b with
  | false =>
    rw [if_neg (by simp)]
    cases hA : denyRequest st.approvals (decisionTarget approval) username
        (some approval.kind) ctx.now with
    | mk a rest =>
      cases rest with
      | mk store' w =>
        cases a with
        | none => rfl
        | some d => rfl
  | true =>
    rw [if_pos rfl]
    cases hA : approveRequest st.approvals (decisionTarget approval) username
        (some approval.kind) ctx.now with
    | mk a rest =>
      cases rest with
      | mk store' w =>
        cases a with
        | none => rfl
        | some d =>
          cases approval.kind with
          | dm => rfl
          | room => rfl

/-- Unfolding the reaction block when the message resolves to a pending
tracked approval. -/
theorem handleReactionEvent_cons (ctx : RxCtx) (mid : String) (e : String × List String)
    (rest : List (String × List String)) (st : ReactionState) (approval : PendingApproval)
    (hfind : findApprovalByMessageId st.approvals mid = some approval)
    (hpend : approval.status = ApprovalStatus.pending) :
    handleReactionEvent ctx mid (e :: rest) st =
      processReactions ctx mid approval st (e :: rest) := by
  unfold handleReactionEvent
  rw [if_neg (by simp), hfind]
  dsimp only
  rw [if_pos (beq_iff_eq.mpr hpend)]

/-- The first authorized, not-yet-processed reaction of an event wins: the
body runs once for it and the `return` skips every remaining reaction of the
message. -/
theorem handleReactionEvent_first (ctx : RxCtx) (mid emoji username : String)
    (rest : List (String × List String)) (st : ReactionState) (approval : PendingApproval)
    (hfind : findApprovalByMessageId st.approvals mid = some approval)
    (hpend : approval.status = ApprovalStatus.pending)
    (hemoji : (isApproveEmoji emoji || isDenyEmoji emoji) = true)
    (happr : checkIsApprover ctx.userIdOf ctx.rolesOf username ctx.approvers = true)
    (hnew : st.processed.contains (reactionKey mid emoji username) = false) :
    handleReactionEvent ctx mid ((emoji, [username]) :: rest) st =
      applyDecision ctx approval username (isApproveEmoji emoji)
        { st with processed := st.processed ++ [reactionKey mid emoji username] } := by
  rw [handleReactionEvent_cons ctx mid (emoji, [username]) rest st approval hfind hpend]
  have hcond : (!isApproveEmoji emoji && !isDenyEmoji emoji) = false := by
    have hor := hemoji
    rw [Bool.or_eq_true] at hor
    rcases hor with h | h <;> simp [h]
  unfold processReactions
  dsimp only
  rw [if_neg (by rw [hcond]; simp)]
  have hpu : processUsers ctx mid emoji approval (isApproveEmoji emoji) st [username] =
      (applyDecision ctx approval username (isApproveEmoji emoji)
        { st with processed := st.processed ++ [reactionKey mid emoji username] }, true) := by
    unfold processUsers
    rw [happr]
    dsimp only
    rw [if_neg (by simp), if_neg (by rw [hnew]; simp)]
  rw [hpu]

/-- A reaction whose dedup key is already in `processedReactions` is skipped,
whatever the state of the tracked approval: the event is a no-op. -/
theorem handleReactionEvent_skip (ctx : RxCtx) (mid emoji username : String)
    (st : ReactionState)
    (hkey : st.processed.contains (reactionKey mid emoji username) = true) :
    handleReactionEvent ctx mid [(emoji, [username])] st = st := by
  unfold handleReactionEvent
  rw [if_neg (by simp)]
  cases hfind : findApprovalByMessageId st.approvals mid with
  | none => rfl
  | some a =>
    dsimp only
    by_cases hs : (a.status == ApprovalStatus.pending) = true
    · rw [if_pos hs]
      unfold processReactions
      dsimp only
      by_cases he : (!isApproveEmoji emoji && !isDenyEmoji emoji) = true
      · rw [if_pos he]
        rfl
      · rw [if_neg he]
        have hpu : processUsers ctx mid emoji a (isApproveEmoji emoji) st [username] =
            (st, false) := by
          unfold processUsers
          by_cases ha : checkIsApprover ctx.userIdOf ctx.rolesOf username ctx.approvers = true
          · rw [ha]
            dsimp only
            rw [if_neg (by simp), if_pos hkey]
            rfl
          · have ha' : checkIsApprover ctx.userIdOf ctx.rolesOf username ctx.approvers
                = false := by
              cases h : checkIsApprover ctx.userIdOf ctx.rolesOf username ctx.approvers with
              | true => exact absurd h ha
              | false => rfl
            rw [ha']
            dsimp only
            rw [if_pos (by simp)]
            rfl
        rw [hpu]
        rfl
    · rw [if_neg hs]

/-- C6: processing a decision reaction on a tracked, still-pending approval
notification is idempotent per `(messageId, emoji, reactor)` triple and the
first authorized reaction wins.  For an authorized (approver) reaction with a
decision emoji whose dedup key is not yet in `processedReactions`: (1) every
further reaction of the same message event is ignored — the event produces
the same state as the event carrying only that reaction; (2) the dedup key is
recorded; (3) delivering the same reaction event again is a complete no-op,
so the approval (or denial) decision is applied exactly once. -/
theorem C6_reaction_idempotent (ctx : RxCtx) (mid emoji username : String)
    (rest : List (String × List String)) (st : ReactionState)
    (approval : PendingApproval)
    (hfind : findApprovalByMessageId st.approvals mid = some approval)
    (hpend : approval.status = ApprovalStatus.pending)
    (hemoji : (isApproveEmoji emoji || isDenyEmoji emoji) = true)
    (happr : checkIsApprover ctx.userIdOf ctx.rolesOf username ctx.approvers = true)
    (hnew : st.processed.contains (reactionKey mid emoji username) = false) :
    handleReactionEvent ctx mid ((emoji, [username]) :: rest) st =
      handleReactionEvent ctx mid [(emoji, [username])] st ∧
    (handleReactionEvent ctx mid [(emoji, [username])] st).processed =
      st.processed ++ [reactionKey mid emoji username] ∧
    handleReactionEvent ctx mid [(emoji, [username])]
        (handleReactionEvent ctx mid [(emoji, [username])] st) =
      handleReactionEvent ctx mid [(emoji, [username])] st := by
  have h1 := handleReactionEvent_first ctx mid emoji username rest st approval
    hfind hpend hemoji happr hnew
  have h2 := handleReactionEvent_first ctx mid emoji username [] st approval
    hfind hpend hemoji happr hnew
  have hproc : (handleReactionEvent ctx mid [(emoji, [username])] st).processed =
      st.processed ++ [reactionKey mid emoji username] := by
    rw [h2, applyDecision_processed]
  refine ⟨by rw [h1, h2], hproc, ?_⟩
  apply handleReactionEvent_skip
  rw [hproc]
  exact List.elem_iff.mpr (List.mem_append.mpr (Or.inr (List.mem_singleton.mpr rfl)))

/-- Concrete tracked approval for the C6 witness. -/
def wApprovalRx : PendingApproval :=
  { id := "ap1"
    kind := ApprovalType.dm
    targetId := "u1"
    targetName := none
    targetUsername := some "alice"
    requesterId := "u1"
    requesterName := none
    requesterUsername := some "alice"
    replyRoomId := "r9"
    createdAt := 0
    lastNotifiedAt := 0
    expiresAt := none
    status := ApprovalStatus.pending
    decidedBy := none
    decidedAt := none
    notifyMessages := [("r1", "m1")] }

/-- Concrete reaction-block state for the C6 witness. -/
def wStRx : ReactionState :=
  { approvals := { version := 1, pending := [wApprovalRx] }
    allowDm := { version := 1, entries := [] }
    allowRooms := { version := 1, entries := [] }
    processed := []
    sends := [] }

/-- Concrete environment for the C6 witness: one `@boss` approver pattern. -/
def wCtxRx : RxCtx :=
  { userIdOf := fun _ => none
    rolesOf := fun _ => none
    approvers := ["@boss"]
    now := 5 }

/-- C6 witness: on the concrete state, a ✅ reaction by `boss` decides the
approval once (the record flips to `approved`, the requester lands on the DM
allow-list, one notification goes out), later reactions in the same event are
ignored, and redelivering the same reaction is a no-op. -/
theorem C6_witness :
    handleReactionEvent wCtxRx "m1"
        [("white_check_mark", ["boss"]), ("x", ["boss"])] wStRx =
      handleReactionEvent wCtxRx "m1" [("white_check_mark", ["boss"])] wStRx ∧
    (handleReactionEvent wCtxRx "m1" [("white_check_mark", ["boss"])] wStRx).processed =
      [reactionKey "m1" "white_check_mark" "boss"] ∧
    handleReactionEvent wCtxRx "m1" [("white_check_mark", ["boss"])]
        (handleReactionEvent wCtxRx "m1" [("white_check_mark", ["boss"])] wStRx) =
      handleReactionEvent wCtxRx "m1" [("white_check_mark", ["boss"])] wStRx ∧
    (handleReactionEvent wCtxRx "m1" [("white_check_mark", ["boss"])] wStRx).approvals.pending.map
        (fun p => p.status) = [ApprovalStatus.approved] ∧
    (handleReactionEvent wCtxRx "m1" [("white_check_mark", ["boss"])] wStRx).allowDm.entries =
      ["u1"] ∧
    (handleReactionEvent wCtxRx "m1" [("white_check_mark", ["boss"])] wStRx).sends =
      [("room:r9", buildApprovedMessage ApprovalType.dm)] := by
  have h := C6_reaction_idempotent wCtxRx "m1" "white_check_mark" "boss"
    [("x", ["boss"])] wStRx wApprovalRx (by decide) (by decide) (by decide) (by decide)
    (by decide)
  exact ⟨h.1, h.2.1, h.2.2, by decide, by decide, by decide⟩

/-! ## Persistence loaders (`approval-queue.ts`, `pairing.ts`,
`room-users.ts`) -/

/-- JSON values, as produced by `JSON.parse`. -/
inductive Json where
  | null
  | bool (b : Bool)
  | num (n : Int)
  | str (s : String)
  | arr (xs : List Json)
  | obj (fields : List (String × Json))

/-- JavaScript property access `parsed.k` on a parsed JSON value: throws a
`TypeError` on `null` (modelled as `Except.error`), yields the field of an
object (or `undefined`, modelled as `none`, when absent), and yields
`undefined` on any other value (primitives auto-box; arrays are objects
without these properties). -/
def getField : Json → String → Except Unit (Option Json)
  | Json.null, _ => Except.error ()
  | Json.obj fs, k => Except.ok ((fs.find? (fun f => f.1 == k)).map Prod.snd)
  | _, _ => Except.ok none

/-- The `??` operator applied to a property-access result: `undefined` and
`null` both fall back to the default. -/
def coalesce (v : Option Json) (dflt : Json) : Json :=
  match v with
  | none => dflt
  | some Json.null => dflt
  | some j => j

/-- `Array.isArray(x) ? x : []` applied to a property-access result. -/
def asArray : Option Json → List Json
  | some (Json.arr xs) => xs
  | _ => []

/-- `loadStore` from `approval-queue.ts`, without the in-memory cache hit.
The input models the two fallible steps wrapped by the `try`: `none` is a
failed `fs.readFile` (missing file), `some none` is a `JSON.parse` throw
(corrupt content), `some (some parsed)` is a successfully parsed value.  The
`catch` turns every throw — including the `TypeError` of a property access on
a parsed `null` — into the `{ version: 1, pending: [] }` default.  The
`pending` elements are kept untyped, exactly as the source casts them. -/
def loadApprovalStoreRaw (input : Option (Option Json)) : Json × List Json :=
  match input with
  | none => (Json.num 1, [])
  | some none => (Json.num 1, [])
  | some (some parsed) =>
    match getField parsed "version", getField parsed "pending" with
    | Except.ok v, Except.ok p => (coalesce v (Json.num 1), asArray p)
    | _, _ => (Json.num 1, [])

/-- `readPairingStore` from `pairing.ts` (same failure contract, `requests`
field). -/
def readPairingStoreRaw (input : Option (Option Json)) : Json × List Json :=
  match input with
  | none => (Json.num 1, [])
  | some none => (Json.num 1, [])
  | some (some parsed) =>
    match getField parsed "version", getField parsed "requests" with
    | Except.ok v, Except.ok p => (coalesce v (Json.num 1), asArray p)
    | _, _ => (Json.num 1, [])

/-- `readAllowFromStore` from `pairing.ts` (same failure contract, `entries`
field). -/
def readAllowFromStoreRaw (input : Option (Option Json)) : Json × List Json :=
  match input with
  | none => (Json.num 1, [])
  | some none => (Json.num 1, [])
  | some (some parsed) =>
    match getField parsed "version", getField parsed "entries" with
    | Except.ok v, Except.ok p => (coalesce v (Json.num 1), asArray p)
    | _, _ => (Json.num 1, [])

/-- `loadStore` from `room-users.ts`: `rooms` falls back to `{}` via `??`. -/
def loadRoomUsersStoreRaw (input : Option (Option Json)) : Json × Json :=
  match input with
  | none => (Json.num 1, Json.obj [])
  | some none => (Json.num 1, Json.obj [])
  | some (some parsed) =>
    match getField parsed "version", getField parsed "rooms" with
    | Except.ok v, Except.ok r => (coalesce v (Json.num 1), coalesce r (Json.obj []))
    | _, _ => (Json.num 1, Json.obj [])

/-- A property-access result that is never an array comes back as the empty
collection. -/
theorem asArray_eq_nil (v : Option Json) (h : ∀ ys, v ≠ some (Json.arr ys)) :
    asArray v = [] := by
  cases v with
  | none => rfl
  | some j =>
    cases j with
    | null => rfl
    | bool b => rfl
    | num n => rfl
    | str s => rfl
    | arr ys => exact absurd rfl (h ys)
    | obj fs => rfl

/-- C9: every persisted-document loader (approval queue, pairing requests,
allow-list, room users) returns its module's empty default — `version 1` and
an empty collection — when the backing file is missing, when its content does
not parse as JSON, and when the parsed value is `null` (whose property access
throws and is caught); and whenever the parsed value's collection field is
not an array (resp. the `rooms` field is absent or `null`), the collection
comes back empty.  Every loader is a total function of the read result, so no
read failure propagates to the caller. -/
theorem C9_load_tolerates_corruption :
    (loadApprovalStoreRaw none = (Json.num 1, []) ∧
     loadApprovalStoreRaw (some none) = (Json.num 1, []) ∧
     loadApprovalStoreRaw (some (some Json.null)) = (Json.num 1, [])) ∧
    (readPairingStoreRaw none = (Json.num 1, []) ∧
     readPairingStoreRaw (some none) = (Json.num 1, []) ∧
     readPairingStoreRaw (some (some Json.null)) = (Json.num 1, [])) ∧
    (readAllowFromStoreRaw none = (Json.num 1, []) ∧
     readAllowFromStoreRaw (some none) = (Json.num 1, []) ∧
     readAllowFromStoreRaw (some (some Json.null)) = (Json.num 1, [])) ∧
    (loadRoomUsersStoreRaw none = (Json.num 1, Json.obj []) ∧
     loadRoomUsersStoreRaw (some none) = (Json.num 1, Json.obj []) ∧
     loadRoomUsersStoreRaw (some (some Json.null)) = (Json.num 1, Json.obj [])) ∧
    (∀ j : Json, (∀ ys, getField j "pending" ≠ Except.ok (some (Json.arr ys))) →
      (loadApprovalStoreRaw (some (some j))).2 = []) ∧
    (∀ j : Json, (∀ ys, getField j "requests" ≠ Except.ok (some (Json.arr ys))) →
      (readPairingStoreRaw (some (some j))).2 = []) ∧
    (∀ j : Json, (∀ ys, getField j "entries" ≠ Except.ok (some (Json.arr ys))) →
      (readAllowFromStoreRaw (some (some j))).2 = []) ∧
    (∀ j : Json,
      (getField j "rooms" = Except.ok none ∨
       getField j "rooms" = Except.ok (some Json.null) ∨
       getField j "rooms" = Except.error ()) →
      (loadRoomUsersStoreRaw (some (some j))).2 = Json.obj []) := by
  refine ⟨⟨rfl, rfl, rfl⟩, ⟨rfl, rfl, rfl⟩, ⟨rfl, rfl, rfl⟩, ⟨rfl, rfl, rfl⟩,
    ?_, ?_, ?_, ?_⟩
  · intro j hne
    unfold loadApprovalStoreRaw
    dsimp only
    cases hv : getField j "version" with
    | error e =>
      cases hp : getField j "pending" with
      | error e2 => rfl
      | ok p => rfl
    | ok v =>
      cases hp : getField j "pending" with
      | error e2 => rfl
      | ok p =>
        exact asArray_eq_nil p (fun ys hEq => hne ys (by rw [hp, hEq]))
  · intro j hne
    unfold readPairingStoreRaw
    dsimp only
    cases hv : getField j "version" with
    | error e =>
      cases hp : getField j "requests" with
      | error e2 => rfl
      | ok p => rfl
    | ok v =>
      cases hp : getField j "requests" with
      | error e2 => rfl
      | ok p =>
        exact asArray_eq_nil p (fun ys hEq => hne ys (by rw [hp, hEq]))
  · intro j hne
    unfold readAllowFromStoreRaw
    dsimp only
    cases hv : getField j "version" with
    | error e =>
      cases hp : getField j "entries" with
      | error e2 => rfl
      | ok p => rfl
    | ok v =>
      cases hp : getField j "entries" with
      | error e2 => rfl
      | ok p =>
        exact asArray_eq_nil p (fun ys hEq => hne ys (by rw [hp, hEq]))
  · intro j hr
    unfold loadRoomUsersStoreRaw
    dsimp only
    cases hv : getField j "version" with
    | error e =>
      cases hp : getField j "rooms" with
      | error e2 => rfl
      | ok r => rfl
    | ok v =>
      cases hp : getField j "rooms" with
      | error e2 => rfl
      | ok r =>
        rcases hr with h | h | h
        · rw [hp] at h
          injection h with h1
          rw [h1]
          rfl
        · rw [hp] at h
          injection h with h1
          rw [h1]
          rfl
        · rw [hp] at h
          exact absurd h (by intro hc; cases hc)

/-- C9 witness: a store file that parses but has the wrong shape —
`pending` holding a string, `rooms` absent — loads as the empty default
collections; the missing-file default is the full default pair. -/
theorem C9_witness :
    (loadApprovalStoreRaw (some (some (Json.obj [("pending", Json.str "oops")])))).2 =
      [] ∧
    (loadRoomUsersStoreRaw (some (some (Json.obj [])))).2 = Json.obj [] ∧
    loadApprovalStoreRaw none = (Json.num 1, []) := by
  have hval : ∀ ys, getField (Json.obj [("pending", Json.str "oops")]) "pending" ≠
      Except.ok (some (Json.arr ys)) := by
    intro ys h
    rw [show getField (Json.obj [("pending", Json.str "oops")]) "pending" =
        Except.ok (some (Json.str "oops")) from rfl] at h
    injection h with h1
    injection h1 with h2
    exact Json.noConfusion h2
  have hrooms : getField (Json.obj []) "rooms" = Except.ok none ∨
      getField (Json.obj []) "rooms" = Except.ok (some Json.null) ∨
      getField (Json.obj []) "rooms" = Except.error () := Or.inl rfl
  exact ⟨C9_load_tolerates_corruption.2.2.2.2.1 (Json.obj [("pending", Json.str "oops")])
      hval,
    C9_load_tolerates_corruption.2.2.2.2.2.2.2 (Json.obj []) hrooms,
    C9_load_tolerates_corruption.1.1⟩
